import Mathlib

/-!
PADRING: library builder (`prlefreader.cpp`) and CSV report writer (`csvwriter.cpp`)

A shallow embedding of the two translation units and the properties of their
specification.

Modelling conventions

* `double` values are rationals (`ℚ`); NaN and infinities are outside the model.
  The arithmetic of the geometry step (`+`, `-`, `*`, `/` of `double`), the C
  library functions `cos`/`sin` and the stream formatting of a `double` are
  fields of `FloatEnv`, so that the geometry can be read in exact arithmetic or
  in IEEE 754 arithmetic (`ieeeEnv`, which rounds every result).  The
  orientation step writes its position offsets with `+`; no property below
  depends on how these sums round.
* Raw pointers are addresses (indices) into explicit heaps; `nullptr` is `none`.
  A handler that dereferences a null or dangling pointer returns `none`.
* `std::unordered_map<std::string, T*>` is an association list from keys to
  addresses: `find` is `List.lookup`, `insert` of an absent key appends, `size`
  is the length.
* Calls to `doLog` only write diagnostics and are left out.
-/

namespace Padring

/-! ## Records of the cell library (`prlefreader.h`) -/

/-- Pin record `LEFPinInfo_t`.  The codes stored by the handlers are
`m_dir`: 0 input, 1 output, 2 other; `m_use`: 0 signal, 1 power, 2 ground;
`m_class`: 1 core. -/
structure LEFPinInfo_t where
  m_name : String
  m_dir : Int
  m_use : Int
  m_class : Int
deriving DecidableEq, Repr

/-- Cell record `LEFCellInfo_t`.  `m_pins` maps a pin name to the address of its
pin record in the pin heap. -/
structure LEFCellInfo_t where
  m_name : String
  m_foreign : String
  m_sx : ℚ
  m_sy : ℚ
  m_symmetry : String
  m_isFiller : Bool
  m_pins : List (String × Nat)
deriving DecidableEq, Repr

/-! ## Report writer (`csvwriter.cpp`) -/

/-- Kind of a placed item (`LayoutItem::m_ltype`).  `writeCell` only tests for
`TYPE_CELL` and `TYPE_BOND`; `TYPE_OTHER` stands for every other enumerator. -/
inductive LayoutItemType where
  | TYPE_CELL
  | TYPE_BOND
  | TYPE_OTHER
deriving DecidableEq, Repr

/-- Side of the ring, `Layout::side_t`. -/
inductive side_t where
  | SIDE_NORTH
  | SIDE_SOUTH
  | SIDE_EAST
  | SIDE_WEST
deriving DecidableEq, Repr

/-- Placed item `LayoutItem`.  `m_lefinfo` is the cell record the item refers to
(`writeCell` dereferences it unconditionally for a CELL or BOND item); `m_ref`
is the optional pointer to another placed item. -/
inductive LayoutItem where
  | mk (m_ltype : LayoutItemType) (m_location : String) (m_x m_y : ℚ)
      (m_lefinfo : LEFCellInfo_t) (m_havebond : Bool)
      (m_instance m_cellname : String) (m_ref : Option LayoutItem)

namespace LayoutItem

def m_ltype : LayoutItem → LayoutItemType
  | mk t _ _ _ _ _ _ _ _ => t

def m_location : LayoutItem → String
  | mk _ l _ _ _ _ _ _ _ => l

def m_x : LayoutItem → ℚ
  | mk _ _ x _ _ _ _ _ _ => x

def m_y : LayoutItem → ℚ
  | mk _ _ _ y _ _ _ _ _ => y

def m_lefinfo : LayoutItem → LEFCellInfo_t
  | mk _ _ _ _ c _ _ _ _ => c

def m_havebond : LayoutItem → Bool
  | mk _ _ _ _ _ b _ _ _ => b

def m_instance : LayoutItem → String
  | mk _ _ _ _ _ _ i _ _ => i

def m_cellname : LayoutItem → String
  | mk _ _ _ _ _ _ _ n _ => n

def m_ref : LayoutItem → Option LayoutItem
  | mk _ _ _ _ _ _ _ _ r => r

end LayoutItem

/-- Ring assembly `PadringDB`: the four sides and the design name. -/
structure PadringDB where
  m_south : List LayoutItem
  m_east : List LayoutItem
  m_north : List LayoutItem
  m_west : List LayoutItem
  m_designName : String

/-- Floating-point environment: the arithmetic of `double` used by the geometry
step, `cos` and `sin` of the C library and the text `operator<<` prints for a
`double`. -/
structure FloatEnv where
  add : ℚ → ℚ → ℚ
  sub : ℚ → ℚ → ℚ
  mul : ℚ → ℚ → ℚ
  div : ℚ → ℚ → ℚ
  cos : ℚ → ℚ
  sin : ℚ → ℚ
  fmt : ℚ → String

/-- Position of the leading binary digit of `n`, by halving at most `fuel`
times. -/
def ilog2 : Nat → Nat → Nat
  | 0, _ => 0
  | fuel + 1, n => if n < 2 then 0 else ilog2 fuel (n / 2) + 1

/-- The quotient `n / d` rounded to the nearest natural number, ties to even. -/
def roundNat (n d : Nat) : Nat :=
  let q := n / d
  let r := n % d
  if 2 * r < d then q else if d < 2 * r then q + 1 else if q % 2 = 0 then q else q + 1

/-- IEEE 754 binary64 rounding of a rational: the nearest number with a 53-bit
significand, ties to even.  The exponent range is unbounded (overflow and
subnormal numbers are outside the model). -/
def roundDouble (q : ℚ) : ℚ :=
  let n := q.num.natAbs
  let d := q.den
  if n = 0 then 0 else
    let e0 : Int := (ilog2 4096 n : Int) - (ilog2 4096 d : Int)
    let e : Int := if d * 2 ^ e0.toNat ≤ n * 2 ^ (-e0).toNat then e0 else e0 - 1
    let s : Int := e - 52
    let m := roundNat (n * 2 ^ (-s).toNat) (d * 2 ^ s.toNat)
    let v : ℚ := mkRat (m * 2 ^ s.toNat) (2 ^ (-s).toNat)
    if q.num < 0 then -v else v

/-- IEEE 754 arithmetic: every operation returns the exact result rounded by
`roundDouble`.  Of `cos` and `sin` only the values at 0 are fixed (1 and 0). -/
def ieeeEnv : FloatEnv :=
  { add := fun a b => roundDouble (a + b), sub := fun a b => roundDouble (a - b),
    mul := fun a b => roundDouble (a * b), div := fun a b => roundDouble (a / b),
    cos := fun t => if t = 0 then 1 else 0, sin := fun _ => 0, fmt := fun _ => "" }

/-- The identities of `double` arithmetic at a finite value `a`: `0 + a = a`,
`a - 0 = a`, `a * 1 = a` and `a * 0 = 0`. -/
def FloatEnv.Identities (env : FloatEnv) (a : ℚ) : Prop :=
  env.add 0 a = a ∧ env.sub a 0 = a ∧ env.mul a 1 = a ∧ env.mul a 0 = 0

/-- One buffered line of the report: the values streamed into `m_ss` by one
emitting branch of `writeCell`.  `side` is the side text exactly as streamed
(`",SOUTH,"` and so on). -/
structure Row where
  side : String
  seq : Nat
  assocInst : String
  assocCell : String
  bondInst : String
  bondCell : String
  x : ℚ
  y : ℚ
  location : String
  cx : ℚ
  cy : ℚ
deriving DecidableEq, Repr

/-- Text of a buffered line, in the order the pieces are streamed. -/
def Row.render (env : FloatEnv) (r : Row) : String :=
  r.side ++ toString r.seq ++ ",I/O,NONE," ++ r.assocInst ++ "," ++ r.assocCell ++ ",-,"
    ++ r.bondInst ++ "," ++ r.bondCell ++ ","
    ++ env.fmt r.x ++ "," ++ env.fmt r.y ++ "," ++ r.location ++ ","
    ++ env.fmt r.cx ++ "," ++ env.fmt r.cy ++ ",\n"

/-- Writer state: the row counter `m_side`, the row buffer `m_ss` (its text is
the concatenation of the rendered rows) and `m_designName`.  The counter is an
unbounded natural number. -/
structure CSVWriter where
  m_side : Nat
  m_ss : List Row
  m_designName : String
deriving DecidableEq, Repr

/-- Constructor `CSVWriter::CSVWriter`. -/
def CSVWriter.new : CSVWriter :=
  { m_side := 0, m_ss := [], m_designName := "No Name" }

/-- Text of the row buffer, `m_ss.str()`. -/
def CSVWriter.str (env : FloatEnv) (w : CSVWriter) : String :=
  String.join (w.m_ss.map (Row.render env))

/-- Rotation in degrees and reported position of an item. -/
structure Placement where
  rot : ℚ
  x : ℚ
  y : ℚ
deriving DecidableEq, Repr

/-- Lines 56-100 of `writeCell`: rotation and position from the orientation
label.  The first chain handles N, S, E, W, the second the corners NW, SE, NE. -/
def writeCell.orient (item : LayoutItem) : Placement :=
  let p0 : Placement := { rot := 0.0, x := item.m_x, y := item.m_y }
  let p1 : Placement :=
    if item.m_location = "N" then
      { p0 with x := p0.x + item.m_lefinfo.m_sx, rot := 180.0 }
    else if item.m_location = "S" then
      p0
    else if item.m_location = "E" then
      { p0 with rot := 90.0 }
    else if item.m_location = "W" then
      { p0 with y := p0.y + item.m_lefinfo.m_sx, rot := 270.0 }
    else p0
  if item.m_location = "NW" then
    { p1 with rot := 270.0 }
  else if item.m_location = "SE" then
    { p1 with x := p1.x + item.m_lefinfo.m_sy, rot := 90.0 }
  else if item.m_location = "NE" then
    { p1 with x := p1.x + item.m_lefinfo.m_sx, rot := 180.0 }
  else p1

/-- Product of two `std::complex<double>` values, as (real, imaginary) pairs. -/
def cmul (env : FloatEnv) (a b : ℚ × ℚ) : ℚ × ℚ :=
  (env.sub (env.mul a.1 b.1) (env.mul a.2 b.2), env.add (env.mul a.1 b.2) (env.mul a.2 b.1))

/-- Sum of two `std::complex<double>` values. -/
def cadd (env : FloatEnv) (a b : ℚ × ℚ) : ℚ × ℚ :=
  (env.add a.1 b.1, env.add a.2 b.2)

/-- Resolved footprint of an item: the four corners and the centroid. -/
structure Geometry where
  ll : ℚ × ℚ
  ul : ℚ × ℚ
  ur : ℚ × ℚ
  lr : ℚ × ℚ
  cx : ℚ
  cy : ℚ
deriving DecidableEq, Repr

/-- Lines 102-119 of `writeCell`: corners rotated by `rot` degrees, translated
to the resolved position, and the centroid, in the arithmetic of `env`. -/
def writeCell.geometry (env : FloatEnv) (item : LayoutItem) (p : Placement) : Geometry :=
  let ll : ℚ × ℚ := (0.0, 0.0)
  let ul : ℚ × ℚ := (0.0, item.m_lefinfo.m_sy)
  let ur : ℚ × ℚ := (item.m_lefinfo.m_sx, item.m_lefinfo.m_sy)
  let lr : ℚ × ℚ := (item.m_lefinfo.m_sx, 0.0)
  let rr : ℚ × ℚ :=
    (env.cos (env.div (env.mul 3.1415927 p.rot) 180.0),
     env.sin (env.div (env.mul 3.1415927 p.rot) 180.0))
  let ll := cadd env (cmul env ll rr) (p.x, p.y)
  let ul := cadd env (cmul env ul rr) (p.x, p.y)
  let ur := cadd env (cmul env ur rr) (p.x, p.y)
  let lr := cadd env (cmul env lr rr) (p.x, p.y)
  { ll := ll, ul := ul, ur := ur, lr := lr,
    cx := env.mul 0.5 (env.add ll.1 ur.1), cy := env.mul 0.5 (env.add ll.2 ur.2) }

/-- Side text streamed at the start of a row: four independent tests. -/
def sideText (s : side_t) : String :=
  (if s = side_t.SIDE_SOUTH then ",SOUTH," else "")
    ++ (if s = side_t.SIDE_NORTH then ",NORTH," else "")
    ++ (if s = side_t.SIDE_EAST then ",EAST," else "")
    ++ (if s = side_t.SIDE_WEST then ",WEST," else "")

/-- Method `CSVWriter::writeCell`. -/
def writeCell (env : FloatEnv) (item : LayoutItem) (s : side_t) (w : CSVWriter) : CSVWriter :=
  if item.m_ltype ≠ LayoutItemType.TYPE_CELL ∧ item.m_ltype ≠ LayoutItemType.TYPE_BOND then
    w
  else
    let p := writeCell.orient item
    let g := writeCell.geometry env item p
    let w1 : CSVWriter :=
      if item.m_ltype = LayoutItemType.TYPE_CELL ∧ item.m_havebond = false then
        { w with
          m_side := w.m_side + 1
          m_ss := w.m_ss ++ [{
            side := sideText s, seq := w.m_side + 1,
            assocInst := item.m_instance, assocCell := item.m_cellname,
            bondInst := item.m_instance, bondCell := item.m_cellname,
            x := p.x, y := p.y, location := item.m_location, cx := g.cx, cy := g.cy }] }
      else w
    if item.m_ltype = LayoutItemType.TYPE_BOND then
      { w1 with
        m_side := w1.m_side + 1
        m_ss := w1.m_ss ++ [{
          side := sideText s, seq := w1.m_side + 1,
          assocInst := (match item.m_ref with
            | some r => r.m_instance
            | none => item.m_instance),
          assocCell := (match item.m_ref with
            | some r => r.m_cellname
            | none => item.m_cellname),
          bondInst := item.m_instance, bondCell := item.m_cellname,
          x := p.x, y := p.y, location := item.m_location, cx := g.cx, cy := g.cy }] }
    else w1

/-- Method `CSVWriter::writePadring`: south and east are walked front to back;
north and west through reverse iterators, so their last item is written first. -/
def writePadring (env : FloatEnv) (padring : PadringDB) (w : CSVWriter) : CSVWriter :=
  let w := padring.m_south.foldl (fun acc item => writeCell env item side_t.SIDE_SOUTH acc) w
  let w := padring.m_east.foldl (fun acc item => writeCell env item side_t.SIDE_EAST acc) w
  let w := padring.m_north.foldr (fun item acc => writeCell env item side_t.SIDE_NORTH acc) w
  let w := padring.m_west.foldr (fun item acc => writeCell env item side_t.SIDE_WEST acc) w
  { w with m_designName := padring.m_designName }

/-- Method `CSVWriter::writeToFile`: the text sent to the output stream. -/
def writeToFile (env : FloatEnv) (w : CSVWriter) : String :=
  "Back to Index,\n"
    ++ ",Pin Assignment (" ++ w.m_designName ++ "),\n"
    ++ ",\n"
    ++ ",,,,,Pin Name,\n"
    ++ ",List,Pin No.,Pin Assign,Association,I/O name,I/O Cell,-,Bond Name,Bond Cell,x,y,rotation,cx,cy,\n"
    ++ w.str env

/-! ## Library builder (`prlefreader.cpp`) -/

/-- Modelled from the spec: the constructor of `LEFCellInfo_t` is declared in
`prlefreader.h`; a new record has empty foreign-name and symmetry, is not a
filler, has zero width and height and no pins. -/
def LEFCellInfo_t.new : LEFCellInfo_t :=
  { m_name := "", m_foreign := "", m_sx := 0, m_sy := 0, m_symmetry := "",
    m_isFiller := false, m_pins := [] }

/-- Modelled from the spec: the constructor of `LEFPinInfo_t` is declared in
`prlefreader.h`; a new record is value-initialised (empty name, codes 0). -/
def LEFPinInfo_t.new : LEFPinInfo_t :=
  { m_name := "", m_dir := 0, m_use := 0, m_class := 0 }

/-- Builder state `PRLEFReader`.  `cellHeap` and `pinHeap` hold the records
allocated with `new` (the address of a record is its index; records are never
freed), `m_cells` maps a cell name to the address of its record, `m_parseCell`
and `m_parsePin` are the cursors. -/
structure PRLEFReader where
  cellHeap : List LEFCellInfo_t
  pinHeap : List LEFPinInfo_t
  m_cells : List (String × Nat)
  m_parseCell : Option Nat
  m_parsePin : Option Nat
  m_lefDatabaseUnits : ℚ
deriving DecidableEq, Repr

namespace PRLEFReader

/-- Constructor `PRLEFReader::PRLEFReader` (units `0.0f`).  The constructor does
not set `m_parsePin`; the model starts it at `none`, which no handler may
dereference. -/
def new : PRLEFReader :=
  { cellHeap := [], pinHeap := [], m_cells := [], m_parseCell := none,
    m_parsePin := none, m_lefDatabaseUnits := 0 }

/-- Method `doIntegrityChecks`.  The two tests after the foreign-name default
(empty name, zero width or height) only log. -/
def doIntegrityChecks (r : PRLEFReader) : Option PRLEFReader :=
  match r.m_parseCell with
  | none => some r
  | some a =>
    match r.cellHeap[a]? with
    | none => none
    | some c =>
      let c1 : LEFCellInfo_t :=
        if c.m_foreign = "" then { c with m_foreign := c.m_name } else c
      some { r with cellHeap := r.cellHeap.set a c1 }

/-- Method `onMacro`. -/
def onMacro (macroName : String) (r : PRLEFReader) : Option PRLEFReader :=
  match (if r.m_parseCell ≠ none then doIntegrityChecks r else some r) with
  | none => none
  | some r1 =>
    match r1.m_cells.lookup macroName with
    | some a => some { r1 with m_parseCell := some a }
    | none =>
      let a := r1.cellHeap.length
      some { r1 with
        cellHeap := r1.cellHeap ++ [{ LEFCellInfo_t.new with m_name := macroName }]
        m_cells := r1.m_cells ++ [(macroName, a)]
        m_parseCell := some a }

/-- Method `getCellByName`: the address of the record, `none` for `nullptr`. -/
def getCellByName (macroName : String) (r : PRLEFReader) : Option Nat :=
  r.m_cells.lookup macroName

/-- Method `onSize`. -/
def onSize (sx sy : ℚ) (r : PRLEFReader) : Option PRLEFReader :=
  match r.m_parseCell with
  | none => some r
  | some a =>
    match r.cellHeap[a]? with
    | none => none
    | some c => some { r with cellHeap := r.cellHeap.set a { c with m_sx := sx, m_sy := sy } }

/-- Method `onForeign`; the offsets `ox`, `oy` are not used. -/
def onForeign (foreignName : String) (_ox _oy : ℚ) (r : PRLEFReader) : Option PRLEFReader :=
  match r.m_parseCell with
  | none => some r
  | some a =>
    match r.cellHeap[a]? with
    | none => none
    | some c => some { r with cellHeap := r.cellHeap.set a { c with m_foreign := foreignName } }

/-- Method `onSymmetry`. -/
def onSymmetry (symmetry : String) (r : PRLEFReader) : Option PRLEFReader :=
  match r.m_parseCell with
  | none => some r
  | some a =>
    match r.cellHeap[a]? with
    | none => none
    | some c => some { r with cellHeap := r.cellHeap.set a { c with m_symmetry := symmetry } }

/-- Substring test `hay.find(needle) != std::string::npos`. -/
def contains (hay needle : String) : Bool :=
  hay.data.tails.any (fun t => needle.data.isPrefixOf t)

/-- Method `onClass`: no guard, the open cell is dereferenced at once. -/
def onClass (className : String) (r : PRLEFReader) : Option PRLEFReader :=
  match r.m_parseCell with
  | none => none
  | some a =>
    match r.cellHeap[a]? with
    | none => none
    | some c =>
      some { r with
        cellHeap := r.cellHeap.set a { c with m_isFiller := contains className "SPACER" } }

/-- Method `onDatabaseUnitsMicrons`. -/
def onDatabaseUnitsMicrons (unitsPerMicron : ℚ) (r : PRLEFReader) : Option PRLEFReader :=
  some { r with m_lefDatabaseUnits := unitsPerMicron }

/-- Method `onPin`: no guard, the open cell is dereferenced at once.  A new pin
record is allocated, the CELL's `m_name` is assigned `pinName`, and the record
is inserted into the cell's pin map. -/
def onPin (pinName : String) (r : PRLEFReader) : Option PRLEFReader :=
  match r.m_parseCell with
  | none => none
  | some a =>
    match r.cellHeap[a]? with
    | none => none
    | some c =>
      match c.m_pins.lookup pinName with
      | some q => some { r with m_parsePin := some q }
      | none =>
        let q := r.pinHeap.length
        some { r with
          pinHeap := r.pinHeap ++ [LEFPinInfo_t.new]
          cellHeap := r.cellHeap.set a
            { c with m_name := pinName, m_pins := c.m_pins ++ [(pinName, q)] }
          m_parsePin := some q }

/-- Method `onPinDirection`: no guard, the open pin is dereferenced at once. -/
def onPinDirection (direction : String) (r : PRLEFReader) : Option PRLEFReader :=
  match r.m_parsePin with
  | none => none
  | some q =>
    match r.pinHeap[q]? with
    | none => none
    | some p =>
      let d : Int :=
        if contains direction "INPUT" then 0
        else if contains direction "OUTPUT" then 1
        else 2
      some { r with pinHeap := r.pinHeap.set q { p with m_dir := d } }

/-- Method `onPinUse`. -/
def onPinUse (use : String) (r : PRLEFReader) : Option PRLEFReader :=
  match r.m_parsePin with
  | none => none
  | some q =>
    match r.pinHeap[q]? with
    | none => none
    | some p =>
      let u : Int :=
        if contains use "SIGNAL" then 0
        else if contains use "POWER" then 1
        else if contains use "GROUND" then 2
        else 0
      some { r with pinHeap := r.pinHeap.set q { p with m_use := u } }

/-- Method `onPinLayerClass`. -/
def onPinLayerClass (className : String) (r : PRLEFReader) : Option PRLEFReader :=
  match r.m_parsePin with
  | none => none
  | some q =>
    match r.pinHeap[q]? with
    | none => none
    | some p =>
      if contains className "CORE" then
        some { r with pinHeap := r.pinHeap.set q { p with m_class := 1 } }
      else some r

/-- Semantic parse events delivered by the tokenizer. -/
inductive Event where
  | macroStart (name : String)
  | size (sx sy : ℚ)
  | foreign (name : String) (ox oy : ℚ)
  | symmetry (s : String)
  | cls (s : String)
  | units (u : ℚ)
  | pin (name : String)
  | pinDirection (s : String)
  | pinUse (s : String)
  | pinLayerClass (s : String)
deriving DecidableEq, Repr

/-- Dispatch of one event to its handler. -/
def step (e : Event) (r : PRLEFReader) : Option PRLEFReader :=
  match e with
  | .macroStart n => onMacro n r
  | .size sx sy => onSize sx sy r
  | .foreign n ox oy => onForeign n ox oy r
  | .symmetry s => onSymmetry s r
  | .cls s => onClass s r
  | .units u => onDatabaseUnitsMicrons u r
  | .pin n => onPin n r
  | .pinDirection s => onPinDirection s r
  | .pinUse s => onPinUse s r
  | .pinLayerClass s => onPinLayerClass s r

/-- An event stream applied in order; `none` when some handler faults. -/
def run : List Event → PRLEFReader → Option PRLEFReader
  | [], r => some r
  | e :: es, r =>
    match step e r with
    | none => none
    | some r1 => run es r1

/-- The cell records registered in the database, in insertion order. -/
def registered (r : PRLEFReader) : List (Option LEFCellInfo_t) :=
  r.m_cells.map (fun kv => r.cellHeap[kv.2]?)

end PRLEFReader

/-! ## Specification-side definitions -/

/-- An item qualifies for a row: a CELL without companion bond, or a BOND. -/
def qualifies (item : LayoutItem) : Bool :=
  (decide (item.m_ltype = LayoutItemType.TYPE_CELL) && !item.m_havebond)
    || decide (item.m_ltype = LayoutItemType.TYPE_BOND)

/-- The perimeter walk of the specification: south forward, east forward, north
reversed, west reversed, every item paired with the side it sits on. -/
def visitOrder (p : PadringDB) : List (LayoutItem × side_t) :=
  p.m_south.map (fun i => (i, side_t.SIDE_SOUTH))
    ++ p.m_east.map (fun i => (i, side_t.SIDE_EAST))
    ++ p.m_north.reverse.map (fun i => (i, side_t.SIDE_NORTH))
    ++ p.m_west.reverse.map (fun i => (i, side_t.SIDE_WEST))

/-- Number of qualifying items over the four sides of a ring. -/
def qualCount (p : PadringDB) : Nat :=
  p.m_south.countP qualifies + p.m_east.countP qualifies
    + p.m_north.countP qualifies + p.m_west.countP qualifies

/-- The row the specification prescribes for a qualifying item on side `s`
with sequence number `n`. -/
def rowOf (env : FloatEnv) (item : LayoutItem) (s : side_t) (n : Nat) : Row :=
  let p := writeCell.orient item
  let g := writeCell.geometry env item p
  { side := sideText s, seq := n,
    assocInst := (match item.m_ltype, item.m_ref with
      | LayoutItemType.TYPE_BOND, some r => r.m_instance
      | _, _ => item.m_instance),
    assocCell := (match item.m_ltype, item.m_ref with
      | LayoutItemType.TYPE_BOND, some r => r.m_cellname
      | _, _ => item.m_cellname),
    bondInst := item.m_instance, bondCell := item.m_cellname,
    x := p.x, y := p.y, location := item.m_location, cx := g.cx, cy := g.cy }

/-- Rows prescribed for a walk, numbering the qualifying items from `n + 1`. -/
def rowsFrom (env : FloatEnv) (n : Nat) : List (LayoutItem × side_t) → List Row
  | [] => []
  | v :: vs =>
    if qualifies v.1 then rowOf env v.1 v.2 (n + 1) :: rowsFrom env (n + 1) vs
    else rowsFrom env n vs

/-- The writer applied to a walk, one `writeCell` call per visited item. -/
def writeWalk (env : FloatEnv) (vs : List (LayoutItem × side_t)) (w : CSVWriter) : CSVWriter :=
  vs.foldl (fun acc v => writeCell env v.1 v.2 acc) w

/-! ## Concrete inputs used by the witnesses -/

/-- A floating-point environment with exact arithmetic, `cos 0 = 1` and
`sin 0 = 0`. -/
def envW : FloatEnv :=
  { add := fun a b => a + b, sub := fun a b => a - b, mul := fun a b => a * b,
    div := fun a b => a / b,
    cos := fun t => if t = 0 then 1 else 0, sin := fun _ => 0, fmt := fun _ => "" }

/-- A south-facing CELL at x = 8267271909712855 / 2^43, the `double` nearest to
939.88, and y = 0, with a cell of width 120.25 and height 1. -/
def roundingPadW : LayoutItem :=
  LayoutItem.mk LayoutItemType.TYPE_CELL "S" (mkRat 8267271909712855 8796093022208) 0
    { LEFCellInfo_t.new with m_name := "PAD", m_sx := mkRat 481 4, m_sy := 1 }
    false "io" "PAD" none

/-- A cell record of width 2 and height 1. -/
def cellW : LEFCellInfo_t :=
  { LEFCellInfo_t.new with m_name := "PAD", m_sx := 2, m_sy := 1 }

/-- A CELL item without companion bond, at the origin, facing south. -/
def padW (inst : String) : LayoutItem :=
  LayoutItem.mk LayoutItemType.TYPE_CELL "S" 0 0 cellW false inst "PAD" none

/-- A CELL item that has a companion bond. -/
def bondedPadW (inst : String) : LayoutItem :=
  LayoutItem.mk LayoutItemType.TYPE_CELL "S" 0 0 cellW true inst "PAD" none

/-- A BOND item; `ref` is its optional reference. -/
def bondW (inst : String) (ref : Option LayoutItem) : LayoutItem :=
  LayoutItem.mk LayoutItemType.TYPE_BOND "S" 0 0 cellW false inst "BOND" ref

/-- An item that is neither CELL nor BOND. -/
def spacerW : LayoutItem :=
  LayoutItem.mk LayoutItemType.TYPE_OTHER "S" 0 0 cellW false "" "" none

/-- The ring south=[a,b], east=[c], north=[d,e], west=[f,g,h]. -/
def ringW : PadringDB :=
  { m_south := [padW "a", padW "b"], m_east := [padW "c"],
    m_north := [padW "d", padW "e"], m_west := [padW "f", padW "g", padW "h"],
    m_designName := "top" }

/-- A ring with 2, 3, 1 and 4 qualifying items on its south, east, north and
west side, mixed with items that do not qualify. -/
def ringCountW : PadringDB :=
  { m_south := [padW "s1", spacerW, bondW "s2" none],
    m_east := [bondedPadW "e1", bondW "e1b" (some (bondedPadW "e1")), padW "e2", padW "e3"],
    m_north := [spacerW, padW "n1"],
    m_west := [padW "w1", padW "w2", spacerW, padW "w3", bondW "w4" none],
    m_designName := "top" }

/-- The builder after `macro-start("")` on an empty builder: one open cell whose
name and foreign-name are both empty. -/
def emptyNameW : PRLEFReader :=
  { cellHeap := [LEFCellInfo_t.new], pinHeap := [], m_cells := [("", 0)],
    m_parseCell := some 0, m_parsePin := none, m_lefDatabaseUnits := 0 }

/-- The event stream that builds `twoCellsW`. -/
def twoCellsEventsW : List PRLEFReader.Event :=
  [.macroStart "A", .size 3 4, .symmetry "X Y", .cls "SPACER", .pin "P",
   .pinDirection "OUTPUT", .pinUse "GROUND", .pinLayerClass "CORE", .units 1000,
   .macroStart "B"]

/-- A builder with two cells: "A" (3 by 4, symmetry "X Y", filler, one pin "P")
and the open cell "B". -/
def twoCellsW : PRLEFReader :=
  { cellHeap :=
      [{ m_name := "P", m_foreign := "P", m_sx := 3, m_sy := 4, m_symmetry := "X Y",
         m_isFiller := true, m_pins := [("P", 0)] },
       { LEFCellInfo_t.new with m_name := "B" }],
    pinHeap := [{ m_name := "", m_dir := 1, m_use := 2, m_class := 1 }],
    m_cells := [("A", 0), ("B", 1)],
    m_parseCell := some 1, m_parsePin := some 0, m_lefDatabaseUnits := 1000 }

/-- The builder `twoCellsW` after `macro-start("A")`: "A" is open again and the
integrity check has given "B" its foreign-name. -/
def reopenedW : PRLEFReader :=
  { cellHeap :=
      [{ m_name := "P", m_foreign := "P", m_sx := 3, m_sy := 4, m_symmetry := "X Y",
         m_isFiller := true, m_pins := [("P", 0)] },
       { LEFCellInfo_t.new with m_name := "B", m_foreign := "B" }],
    pinHeap := [{ m_name := "", m_dir := 1, m_use := 2, m_class := 1 }],
    m_cells := [("A", 0), ("B", 1)],
    m_parseCell := some 0, m_parsePin := some 0, m_lefDatabaseUnits := 1000 }

/-- The event stream MACRO A, PIN X, MACRO B, PIN X. -/
def sharedPinNameW : List PRLEFReader.Event :=
  [.macroStart "A", .pin "X", .macroStart "B", .pin "X"]

/-- The event stream MACRO A, PIN P, DIRECTION INPUT, MACRO B, DIRECTION OUTPUT:
the last event arrives after the macro-start of "B" and before any pin-start
for "B". -/
def stalePinEventsW : List PRLEFReader.Event :=
  [.macroStart "A", .pin "P", .pinDirection "INPUT", .macroStart "B",
   .pinDirection "OUTPUT"]

/-- The five header lines of the report for a design name, as the
specification lists them. -/
def headerLines (designName : String) : List String :=
  ["Back to Index,\n",
   ",Pin Assignment (" ++ designName ++ "),\n",
   ",\n",
   ",,,,,Pin Name,\n",
   ",List,Pin No.,Pin Assign,Association,I/O name,I/O Cell,-,Bond Name,Bond Cell,x,y,rotation,cx,cy,\n"]

/-- The lines of the finished report, as the specification lists them: the
header lines, then the buffered rows in buffer order. -/
def reportLines (env : FloatEnv) (w : CSVWriter) : List String :=
  headerLines w.m_designName ++ w.m_ss.map (Row.render env)

namespace PRLEFReader

/-- The names given to macro-start in an event stream, in order. -/
def macroNames : List Event → List String
  | [] => []
  | .macroStart n :: es => n :: macroNames es
  | _ :: es => macroNames es

/-- Ordering contract of the event stream: `class` and `pin-start` come after
some macro-start, and pin-direction, pin-use and pin-layer-class come after some
pin-start.  `haveCell` and `havePin` say whether a macro-start and a pin-start
have been seen already. -/
def ordered (haveCell havePin : Bool) : List Event → Bool
  | [] => true
  | .macroStart _ :: es => ordered true havePin es
  | .cls _ :: es => haveCell && ordered haveCell havePin es
  | .pin _ :: es => haveCell && ordered haveCell true es
  | .pinDirection _ :: es => havePin && ordered haveCell havePin es
  | .pinUse _ :: es => havePin && ordered haveCell havePin es
  | .pinLayerClass _ :: es => havePin && ordered haveCell havePin es
  | _ :: es => ordered haveCell havePin es

/-- Representation invariant of the builder: every address in the cell map
points into the cell heap, the open cell is registered under some key, the keys
are pairwise distinct, and the pin cursor and every pin address of a cell point
into the pin heap. -/
def Inv (r : PRLEFReader) : Prop :=
  (∀ kv ∈ r.m_cells, kv.2 < r.cellHeap.length)
    ∧ (∀ a, r.m_parseCell = some a → ∃ k, (k, a) ∈ r.m_cells)
    ∧ (r.m_cells.map Prod.fst).Nodup
    ∧ (∀ q, r.m_parsePin = some q → q < r.pinHeap.length)
    ∧ (∀ c ∈ r.cellHeap, ∀ kv ∈ c.m_pins, kv.2 < r.pinHeap.length)

/-- The builder `r1` is `r`, or `r` with the record of the open cell replaced by
a record with the same pin map. -/
def CellUpdate (r r1 : PRLEFReader) : Prop :=
  r1 = r ∨ ∃ a c c1, r.m_parseCell = some a ∧ r.cellHeap[a]? = some c
    ∧ c1.m_pins = c.m_pins ∧ r1 = { r with cellHeap := r.cellHeap.set a c1 }

/-- The builder `r1` is `r`, or `r` with the record of the open pin replaced. -/
def PinUpdate (r r1 : PRLEFReader) : Prop :=
  r1 = r ∨ ∃ q p1, r.m_parsePin = some q ∧ q < r.pinHeap.length
    ∧ r1 = { r with pinHeap := r.pinHeap.set q p1 }

end PRLEFReader

/-! ## Lemmas on the writer -/

theorem writeCell_eq (env : FloatEnv) (item : LayoutItem) (s : side_t) (w : CSVWriter) :
    writeCell env item s w =
      if qualifies item then
        { w with m_side := w.m_side + 1, m_ss := w.m_ss ++ [rowOf env item s (w.m_side + 1)] }
      else w := by
  cases h : item.m_ltype <;> cases hb : item.m_havebond <;> cases hr : item.m_ref <;>
    simp [writeCell, qualifies, rowOf, h, hb, hr]

theorem writeWalk_eq (env : FloatEnv) (vs : List (LayoutItem × side_t)) (w : CSVWriter) :
    writeWalk env vs w =
      { w with m_side := w.m_side + vs.countP (fun v => qualifies v.1),
               m_ss := w.m_ss ++ rowsFrom env w.m_side vs } := by
  induction vs generalizing w with
  | nil => simp [writeWalk, rowsFrom]
  | cons v vs ih =>
    have hstep : writeWalk env (v :: vs) w = writeWalk env vs (writeCell env v.1 v.2 w) := rfl
    rw [hstep, ih, writeCell_eq]
    by_cases hq : qualifies v.1 = true
    · simp [hq, rowsFrom, List.countP_cons, Nat.add_assoc, Nat.add_comm 1]
    · simp [hq, rowsFrom, List.countP_cons]

theorem writeWalk_append (env : FloatEnv) (us vs : List (LayoutItem × side_t)) (w : CSVWriter) :
    writeWalk env (us ++ vs) w = writeWalk env vs (writeWalk env us w) := by
  simp [writeWalk, List.foldl_append]

theorem writeWalk_map (env : FloatEnv) (l : List LayoutItem) (s : side_t) (w : CSVWriter) :
    writeWalk env (l.map (fun i => (i, s))) w
      = l.foldl (fun acc item => writeCell env item s acc) w := by
  simp [writeWalk, List.foldl_map]

theorem writeWalk_reverse_map (env : FloatEnv) (l : List LayoutItem) (s : side_t)
    (w : CSVWriter) :
    writeWalk env (l.reverse.map (fun i => (i, s))) w
      = l.foldr (fun item acc => writeCell env item s acc) w := by
  simp [writeWalk, List.foldl_map, List.foldl_reverse, List.foldr_map]

theorem writePadring_eq_walk (env : FloatEnv) (p : PadringDB) (w : CSVWriter) :
    writePadring env p w =
      { writeWalk env (visitOrder p) w with m_designName := p.m_designName } := by
  unfold visitOrder
  rw [writeWalk_append, writeWalk_append, writeWalk_append, writeWalk_reverse_map,
    writeWalk_reverse_map, writeWalk_map, writeWalk_map]
  rfl

theorem rowsFrom_seq (env : FloatEnv) (n : Nat) (vs : List (LayoutItem × side_t)) :
    (rowsFrom env n vs).map Row.seq
      = List.range' (n + 1) (vs.countP (fun v => qualifies v.1)) := by
  induction vs generalizing n with
  | nil => simp [rowsFrom]
  | cons v vs ih =>
    by_cases hq : qualifies v.1 = true
    · simp [rowsFrom, hq, ih, List.countP_cons, List.range'_succ, rowOf]
    · simp [rowsFrom, hq, ih, List.countP_cons]

theorem rowsFrom_all (env : FloatEnv) (n : Nat) (vs : List (LayoutItem × side_t))
    (h : ∀ v ∈ vs, qualifies v.1 = true) :
    (rowsFrom env n vs).map (fun r => (r.side, r.bondInst, r.bondCell))
      = vs.map (fun v => (sideText v.2, v.1.m_instance, v.1.m_cellname)) := by
  induction vs generalizing n with
  | nil => simp [rowsFrom]
  | cons v vs ih =>
    have hv : qualifies v.1 = true := h v (List.mem_cons_self _ _)
    have ht : ∀ u ∈ vs, qualifies u.1 = true := fun u hu => h u (List.mem_cons_of_mem _ hu)
    simp [rowsFrom, hv, ih _ ht, rowOf]

theorem visitOrder_countP (p : PadringDB) :
    (visitOrder p).countP (fun v => qualifies v.1) = qualCount p := by
  simp [visitOrder, qualCount, List.countP_append, List.countP_map, Function.comp_def,
    List.countP_reverse, Nat.add_assoc]

/-! ## Claims on the report writer -/

/-- C1: `writePadring` visits south front to back, east front to back, north
back to front and west back to front, passing every item to `writeCell` with
the label of its side; when every item qualifies for a row, the rows emitted
are, in order, those of south ++ east ++ reverse north ++ reverse west. -/
theorem C1_writePadring_visit_order (env : FloatEnv) (p : PadringDB) (w : CSVWriter) :
    writePadring env p w
        = { writeWalk env (visitOrder p) w with m_designName := p.m_designName }
      ∧ ((∀ v ∈ visitOrder p, qualifies v.1 = true) →
          ∃ rows, (writePadring env p w).m_ss = w.m_ss ++ rows
            ∧ rows.map (fun r => (r.side, r.bondInst, r.bondCell))
                = (visitOrder p).map
                    (fun v => (sideText v.2, v.1.m_instance, v.1.m_cellname))) := by
  refine ⟨writePadring_eq_walk env p w, fun h => ?_⟩
  refine ⟨rowsFrom env w.m_side (visitOrder p), ?_, rowsFrom_all env _ _ h⟩
  rw [writePadring_eq_walk, writeWalk_eq]

/-- C1 at south=[a,b], east=[c], north=[d,e], west=[f,g,h]: every item
qualifies and the rows come out as a, b, c, e, d, h, g, f. -/
theorem C1_witness :
    (∀ v ∈ visitOrder ringW, qualifies v.1 = true)
      ∧ ∃ rows, (writePadring envW ringW CSVWriter.new).m_ss = CSVWriter.new.m_ss ++ rows
          ∧ rows.map (fun r => (r.side, r.bondInst))
              = [(",SOUTH,", "a"), (",SOUTH,", "b"), (",EAST,", "c"), (",NORTH,", "e"),
                 (",NORTH,", "d"), (",WEST,", "h"), (",WEST,", "g"), (",WEST,", "f")] := by
  have hq : ∀ v ∈ visitOrder ringW, qualifies v.1 = true := by decide
  refine ⟨hq, ?_⟩
  obtain ⟨rows, h1, h2⟩ := (C1_writePadring_visit_order envW ringW CSVWriter.new).2 hq
  refine ⟨rows, h1, ?_⟩
  have h3 := congrArg (List.map (fun t : String × String × String => (t.1, t.2.1))) h2
  simp only [List.map_map] at h3
  exact h3.trans (by decide)

/-- C2: a ring resolved by a freshly constructed writer buffers exactly as many
rows as there are qualifying items on its four sides, and the k-th buffered row
carries sequence number k: the numbers are 1, 2, ..., n without a reset at a
side boundary. -/
theorem C2_fresh_writer_row_numbers (env : FloatEnv) (p : PadringDB) :
    (writePadring env p CSVWriter.new).m_ss.length = qualCount p
      ∧ (writePadring env p CSVWriter.new).m_ss.map Row.seq = List.range' 1 (qualCount p)
      ∧ (writePadring env p CSVWriter.new).m_side = qualCount p := by
  have hss : (writePadring env p CSVWriter.new).m_ss
      = rowsFrom env 0 (visitOrder p) := by
    rw [writePadring_eq_walk, writeWalk_eq]
    simp [CSVWriter.new]
  have hseq := rowsFrom_seq env 0 (visitOrder p)
  rw [visitOrder_countP] at hseq
  refine ⟨?_, ?_, ?_⟩
  · have hlen := congrArg List.length hseq
    simpa [hss] using hlen
  · rw [hss]
    simpa using hseq
  · rw [writePadring_eq_walk, writeWalk_eq]
    simp [CSVWriter.new, visitOrder_countP]

/-- C2 at a ring with 2, 3, 1 and 4 qualifying items on south, east, north and
west: the rows are numbered 1 to 10. -/
theorem C2_witness :
    qualCount ringCountW = 10
      ∧ (writePadring envW ringCountW CSVWriter.new).m_ss.map Row.seq
          = [1, 2, 3, 4, 5, 6, 7, 8, 9, 10] := by
  have hc : qualCount ringCountW = 10 := by decide
  refine ⟨hc, ?_⟩
  rw [(C2_fresh_writer_row_numbers envW ringCountW).2.1, hc]
  decide

/-- C3: `writeCell` appends exactly one row and adds one to the row counter
when the item is a CELL without companion bond or a BOND; it leaves the writer
(counter, buffer, design name) unchanged when the item is a CELL with a
companion bond or is neither CELL nor BOND. -/
theorem C3_writeCell_row_count (env : FloatEnv) (item : LayoutItem) (s : side_t)
    (w : CSVWriter) :
    (((item.m_ltype = LayoutItemType.TYPE_CELL ∧ item.m_havebond = false)
          ∨ item.m_ltype = LayoutItemType.TYPE_BOND) →
        (∃ row, (writeCell env item s w).m_ss = w.m_ss ++ [row])
          ∧ (writeCell env item s w).m_side = w.m_side + 1
          ∧ (writeCell env item s w).m_designName = w.m_designName)
      ∧ (((item.m_ltype = LayoutItemType.TYPE_CELL ∧ item.m_havebond = true)
          ∨ (item.m_ltype ≠ LayoutItemType.TYPE_CELL
              ∧ item.m_ltype ≠ LayoutItemType.TYPE_BOND)) →
        writeCell env item s w = w) := by
  constructor
  · intro h
    have hq : qualifies item = true := by
      rcases h with ⟨h1, h2⟩ | h1 <;> simp [qualifies, *]
    rw [writeCell_eq]
    simp [hq]
  · intro h
    have hq : qualifies item = false := by
      rcases h with ⟨h1, h2⟩ | ⟨h1, h2⟩ <;> simp [qualifies, *]
    rw [writeCell_eq]
    simp [hq]

/-- C3 at a BOND item (one row, counter 0 to 1) and at a CELL that has a
companion bond (writer unchanged). -/
theorem C3_witness :
    ((∃ row, (writeCell envW (bondW "b" none) side_t.SIDE_EAST CSVWriter.new).m_ss
          = CSVWriter.new.m_ss ++ [row])
        ∧ (writeCell envW (bondW "b" none) side_t.SIDE_EAST CSVWriter.new).m_side = 0 + 1
        ∧ (writeCell envW (bondW "b" none) side_t.SIDE_EAST CSVWriter.new).m_designName
            = "No Name")
      ∧ writeCell envW (bondedPadW "p") side_t.SIDE_EAST CSVWriter.new = CSVWriter.new :=
  ⟨(C3_writeCell_row_count envW (bondW "b" none) side_t.SIDE_EAST CSVWriter.new).1
      (Or.inr rfl),
    (C3_writeCell_row_count envW (bondedPadW "p") side_t.SIDE_EAST CSVWriter.new).2
      (Or.inl ⟨rfl, rfl⟩)⟩

/-- C4: the row of a BOND item has the referenced item's instance and cell name
in its association columns when the reference is non-null and the BOND's own
names when it is null; its bond-identity columns are the BOND's own names.  The
row of a CELL item has its own names in all four columns. -/
theorem C4_association_columns (env : FloatEnv) (item : LayoutItem) (s : side_t)
    (w : CSVWriter) :
    (item.m_ltype = LayoutItemType.TYPE_BOND →
        ∃ row, (writeCell env item s w).m_ss = w.m_ss ++ [row]
          ∧ row.bondInst = item.m_instance ∧ row.bondCell = item.m_cellname
          ∧ (∀ r, item.m_ref = some r →
              row.assocInst = r.m_instance ∧ row.assocCell = r.m_cellname)
          ∧ (item.m_ref = none →
              row.assocInst = item.m_instance ∧ row.assocCell = item.m_cellname))
      ∧ (item.m_ltype = LayoutItemType.TYPE_CELL → item.m_havebond = false →
        ∃ row, (writeCell env item s w).m_ss = w.m_ss ++ [row]
          ∧ row.bondInst = item.m_instance ∧ row.bondCell = item.m_cellname
          ∧ row.assocInst = item.m_instance ∧ row.assocCell = item.m_cellname) := by
  constructor
  · intro h
    have hq : qualifies item = true := by simp [qualifies, h]
    refine ⟨rowOf env item s (w.m_side + 1), ?_, rfl, rfl, ?_, ?_⟩
    · rw [writeCell_eq]; simp [hq]
    · intro r hr
      simp [rowOf, h, hr]
    · intro hr
      simp [rowOf, h, hr]
  · intro h hb
    have hq : qualifies item = true := by simp [qualifies, h, hb]
    refine ⟨rowOf env item s (w.m_side + 1), ?_, rfl, rfl, ?_, ?_⟩
    · rw [writeCell_eq]; simp [hq]
    · simp [rowOf, h]
    · simp [rowOf, h]

/-- C4 at a BOND that refers to the pad "io1", at a BOND without reference and
at a CELL without companion bond. -/
theorem C4_witness :
    (writeCell envW (bondW "b1" (some (bondedPadW "io1"))) side_t.SIDE_SOUTH
          CSVWriter.new).m_ss.map
        (fun r => (r.assocInst, r.assocCell, r.bondInst, r.bondCell))
        = [("io1", "PAD", "b1", "BOND")]
      ∧ (writeCell envW (bondW "b2" none) side_t.SIDE_SOUTH CSVWriter.new).m_ss.map
        (fun r => (r.assocInst, r.assocCell, r.bondInst, r.bondCell))
        = [("b2", "BOND", "b2", "BOND")]
      ∧ (writeCell envW (padW "io3") side_t.SIDE_SOUTH CSVWriter.new).m_ss.map
        (fun r => (r.assocInst, r.assocCell, r.bondInst, r.bondCell))
        = [("io3", "PAD", "io3", "PAD")] := by
  obtain ⟨r1, e1, a1, a2, a3, -⟩ :=
    (C4_association_columns envW (bondW "b1" (some (bondedPadW "io1"))) side_t.SIDE_SOUTH
      CSVWriter.new).1 rfl
  obtain ⟨r2, e2, b1, b2, -, b3⟩ :=
    (C4_association_columns envW (bondW "b2" none) side_t.SIDE_SOUTH CSVWriter.new).1 rfl
  obtain ⟨r3, e3, c1, c2, c3, c4⟩ :=
    (C4_association_columns envW (padW "io3") side_t.SIDE_SOUTH CSVWriter.new).2 rfl rfl
  obtain ⟨a4, a5⟩ := a3 _ rfl
  obtain ⟨b4, b5⟩ := b3 rfl
  refine ⟨?_, ?_, ?_⟩
  · rw [e1]; simp [CSVWriter.new, a1, a2, a4, a5]; decide
  · rw [e2]; simp [CSVWriter.new, b1, b2, b4, b5]; decide
  · rw [e3]; simp [CSVWriter.new, c1, c2, c3, c4]; decide

theorem geometry_south (env : FloatEnv) (item : LayoutItem)
    (hloc : item.m_location = "S") (hcos : env.cos 0 = 1) (hsin : env.sin 0 = 0)
    (hang : env.div (env.mul 3.1415927 0) 180.0 = 0)
    (h0 : env.Identities 0) (hx : env.Identities item.m_x) (hy : env.Identities item.m_y)
    (hw : env.Identities item.m_lefinfo.m_sx) (hh : env.Identities item.m_lefinfo.m_sy) :
    writeCell.geometry env item (writeCell.orient item)
      = { ll := (item.m_x, item.m_y),
          ul := (item.m_x, env.add item.m_lefinfo.m_sy item.m_y),
          ur := (env.add item.m_lefinfo.m_sx item.m_x, env.add item.m_lefinfo.m_sy item.m_y),
          lr := (env.add item.m_lefinfo.m_sx item.m_x, item.m_y),
          cx := env.mul 0.5 (env.add item.m_x (env.add item.m_lefinfo.m_sx item.m_x)),
          cy := env.mul 0.5 (env.add item.m_y (env.add item.m_lefinfo.m_sy item.m_y)) } := by
  have hz : (0.0 : ℚ) = 0 := by norm_num
  have ho : writeCell.orient item = { rot := 0, x := item.m_x, y := item.m_y } := by
    simp [writeCell.orient, hloc, hz]
  obtain ⟨z1, z2, z3, z4⟩ := h0
  obtain ⟨x1, -, -, -⟩ := hx
  obtain ⟨y1, -, -, -⟩ := hy
  obtain ⟨-, w2, w3, w4⟩ := hw
  obtain ⟨h1, -, h3, h4⟩ := hh
  simp only [writeCell.geometry, ho, cmul, cadd, hz, hang, hcos, hsin,
    z1, z2, z3, z4, x1, y1, w2, w3, w4, h1, h3, h4]

/-- C6 (as stated) fails in IEEE 754 arithmetic: for the south-facing CELL at
x = 8267271909712855 / 2^43 (the `double` nearest to 939.88) with width 120.25,
the centroid column is 0.5 * (x + (120.25 + x)) = 1099517125334139 / 2^40
(1000.0050000000001), while x + w / 2 is 8796137002673111 / 2^43 (1000.005),
both as an exact sum and as the rounded sum. -/
theorem C6_counterexample :
    roundingPadW.m_location = "S"
      ∧ roundingPadW.m_ltype = LayoutItemType.TYPE_CELL
      ∧ roundDouble roundingPadW.m_x = roundingPadW.m_x
      ∧ roundDouble roundingPadW.m_lefinfo.m_sx = roundingPadW.m_lefinfo.m_sx
      ∧ (writeCell.geometry ieeeEnv roundingPadW (writeCell.orient roundingPadW)).cx
          = mkRat 1099517125334139 1099511627776
      ∧ roundingPadW.m_x + roundingPadW.m_lefinfo.m_sx / 2
          = mkRat 8796137002673111 8796093022208
      ∧ ieeeEnv.add roundingPadW.m_x (ieeeEnv.div roundingPadW.m_lefinfo.m_sx 2)
          = mkRat 8796137002673111 8796093022208
      ∧ (writeCell.geometry ieeeEnv roundingPadW (writeCell.orient roundingPadW)).cx
          ≠ roundingPadW.m_x + roundingPadW.m_lefinfo.m_sx / 2 := by
  refine ⟨?_, ?_, ?_, ?_, ?_, ?_, ?_, ?_⟩ <;> decide!

/-- C6 (amended): for a south-facing item at (x, y) whose cell has width w and
height h, all finite doubles, with `cos 0 = 1` and `sin 0 = 0`, the corner
points are (x, y), (x, h + y), (w + x, h + y), (w + x, y) in the code's
addition, and the centroid is the midpoint of the first and third corner as the
code computes it, 0.5 * (x + (w + x)) and 0.5 * (y + (h + y)); it is
(x + w / 2, y + h / 2) when these three operations are exact.  The centroid is
the cx, cy column pair of the row of a CELL without companion bond. -/
theorem C6_south_geometry (env : FloatEnv) (item : LayoutItem) (s : side_t) (w : CSVWriter)
    (hloc : item.m_location = "S") (hcos : env.cos 0 = 1) (hsin : env.sin 0 = 0)
    (hang : env.div (env.mul 3.1415927 0) 180.0 = 0)
    (h0 : env.Identities 0) (hx : env.Identities item.m_x) (hy : env.Identities item.m_y)
    (hw : env.Identities item.m_lefinfo.m_sx) (hh : env.Identities item.m_lefinfo.m_sy) :
    (writeCell.geometry env item (writeCell.orient item)).ll = (item.m_x, item.m_y)
      ∧ (writeCell.geometry env item (writeCell.orient item)).ul
          = (item.m_x, env.add item.m_lefinfo.m_sy item.m_y)
      ∧ (writeCell.geometry env item (writeCell.orient item)).ur
          = (env.add item.m_lefinfo.m_sx item.m_x, env.add item.m_lefinfo.m_sy item.m_y)
      ∧ (writeCell.geometry env item (writeCell.orient item)).lr
          = (env.add item.m_lefinfo.m_sx item.m_x, item.m_y)
      ∧ (writeCell.geometry env item (writeCell.orient item)).cx
          = env.mul 0.5
              (env.add (writeCell.geometry env item (writeCell.orient item)).ll.1
                (writeCell.geometry env item (writeCell.orient item)).ur.1)
      ∧ (writeCell.geometry env item (writeCell.orient item)).cy
          = env.mul 0.5
              (env.add (writeCell.geometry env item (writeCell.orient item)).ll.2
                (writeCell.geometry env item (writeCell.orient item)).ur.2)
      ∧ (writeCell.geometry env item (writeCell.orient item)).cx
          = env.mul 0.5 (env.add item.m_x (env.add item.m_lefinfo.m_sx item.m_x))
      ∧ (writeCell.geometry env item (writeCell.orient item)).cy
          = env.mul 0.5 (env.add item.m_y (env.add item.m_lefinfo.m_sy item.m_y))
      ∧ (env.add item.m_lefinfo.m_sx item.m_x = item.m_lefinfo.m_sx + item.m_x →
          env.add item.m_x (item.m_lefinfo.m_sx + item.m_x)
            = item.m_x + (item.m_lefinfo.m_sx + item.m_x) →
          env.mul 0.5 (item.m_x + (item.m_lefinfo.m_sx + item.m_x))
            = 0.5 * (item.m_x + (item.m_lefinfo.m_sx + item.m_x)) →
          (writeCell.geometry env item (writeCell.orient item)).cx
            = item.m_x + item.m_lefinfo.m_sx / 2)
      ∧ (env.add item.m_lefinfo.m_sy item.m_y = item.m_lefinfo.m_sy + item.m_y →
          env.add item.m_y (item.m_lefinfo.m_sy + item.m_y)
            = item.m_y + (item.m_lefinfo.m_sy + item.m_y) →
          env.mul 0.5 (item.m_y + (item.m_lefinfo.m_sy + item.m_y))
            = 0.5 * (item.m_y + (item.m_lefinfo.m_sy + item.m_y)) →
          (writeCell.geometry env item (writeCell.orient item)).cy
            = item.m_y + item.m_lefinfo.m_sy / 2)
      ∧ (item.m_ltype = LayoutItemType.TYPE_CELL → item.m_havebond = false →
          ∃ row, (writeCell env item s w).m_ss = w.m_ss ++ [row]
            ∧ row.cx = (writeCell.geometry env item (writeCell.orient item)).cx
            ∧ row.cy = (writeCell.geometry env item (writeCell.orient item)).cy) := by
  have hg := geometry_south env item hloc hcos hsin hang h0 hx hy hw hh
  refine ⟨?_, ?_, ?_, ?_, ?_, ?_, ?_, ?_, ?_, ?_, ?_⟩
  · rw [hg]
  · rw [hg]
  · rw [hg]
  · rw [hg]
  · rw [hg]
  · rw [hg]
  · rw [hg]
  · rw [hg]
  · intro e1 e2 e3
    rw [hg]
    simp only [e1, e2, e3]
    norm_num
    ring
  · intro e1 e2 e3
    rw [hg]
    simp only [e1, e2, e3]
    norm_num
    ring
  · intro ht hb
    have hq : qualifies item = true := by simp [qualifies, ht, hb]
    refine ⟨rowOf env item s (w.m_side + 1), ?_, rfl, rfl⟩
    rw [writeCell_eq]; simp [hq]

/-- C6 (amended) in IEEE 754 arithmetic at width 2, height 1 and origin (0, 0):
corners (0,0), (0,1), (2,1), (2,0) and centroid (1, 1/2). -/
theorem C6_witness :
    (writeCell.geometry ieeeEnv (padW "a") (writeCell.orient (padW "a"))).ll = (0, 0)
      ∧ (writeCell.geometry ieeeEnv (padW "a") (writeCell.orient (padW "a"))).ul = (0, 1)
      ∧ (writeCell.geometry ieeeEnv (padW "a") (writeCell.orient (padW "a"))).ur = (2, 1)
      ∧ (writeCell.geometry ieeeEnv (padW "a") (writeCell.orient (padW "a"))).lr = (2, 0)
      ∧ (writeCell.geometry ieeeEnv (padW "a") (writeCell.orient (padW "a"))).cx = 1
      ∧ (writeCell.geometry ieeeEnv (padW "a") (writeCell.orient (padW "a"))).cy = 1 / 2 := by
  have hid0 : ieeeEnv.Identities 0 := by
    refine ⟨?_, ?_, ?_, ?_⟩ <;> decide!
  have hid1 : ieeeEnv.Identities 1 := by
    refine ⟨?_, ?_, ?_, ?_⟩ <;> decide!
  have hid2 : ieeeEnv.Identities 2 := by
    refine ⟨?_, ?_, ?_, ?_⟩ <;> decide!
  obtain ⟨h1, h2, h3, h4, -, -, h5, h6, -⟩ :=
    C6_south_geometry ieeeEnv (padW "a") side_t.SIDE_SOUTH CSVWriter.new rfl
      (by decide!) (by decide!) (by decide!) hid0 hid0 hid0 hid2 hid1
  refine ⟨h1, ?_, ?_, ?_, ?_, ?_⟩
  · rw [h2]; decide!
  · rw [h3]; decide!
  · rw [h4]; decide!
  · rw [h5]; decide!
  · rw [h6]; decide!

/-! ## Claims on the library builder -/

namespace PRLEFReader

theorem doIntegrityChecks_open (r : PRLEFReader) (a : Nat) (c : LEFCellInfo_t)
    (ha : r.m_parseCell = some a) (hc : r.cellHeap[a]? = some c) :
    doIntegrityChecks r
      = some { r with
          cellHeap := r.cellHeap.set a
            { c with m_foreign := if c.m_foreign = "" then c.m_name else c.m_foreign } } := by
  unfold doIntegrityChecks
  simp only [ha, hc]
  by_cases hf : c.m_foreign = "" <;> simp [hf]

theorem getElem?_lt_of_eq_some {α : Type} (l : List α) (a : Nat) (c : α)
    (h : l[a]? = some c) : a < l.length := by
  by_contra hlt
  have hnone : l[a]? = none := List.getElem?_eq_none (Nat.le_of_not_lt hlt)
  rw [hnone] at h
  cases h

end PRLEFReader

/-- C7 (as stated) fails: after `macro-start("")` on an empty builder the open
cell has an empty name and an empty foreign-name, and the integrity check leaves
the foreign-name empty. -/
theorem C7_counterexample :
    PRLEFReader.onMacro "" PRLEFReader.new = some emptyNameW
      ∧ emptyNameW.m_parseCell = some 0
      ∧ PRLEFReader.doIntegrityChecks emptyNameW = some emptyNameW
      ∧ emptyNameW.cellHeap[0]?.map LEFCellInfo_t.m_foreign = some ""
      ∧ (PRLEFReader.run [.macroStart "", .macroStart "B"] PRLEFReader.new).map
          (fun r => r.cellHeap[0]?.map LEFCellInfo_t.m_foreign) = some (some "") := by
  decide

/-- C7 (amended): for a builder whose open cell is the record `c`, the integrity
check, run explicitly or by the next macro-start, succeeds and leaves the open
cell's record equal to `c` except for its foreign-name, which is the value it
had when that was non-empty and the cell's name otherwise; the foreign-name is
then non-empty whenever the cell's name or its earlier foreign-name is. -/
theorem C7_integrity_foreign_default (r : PRLEFReader) (a : Nat) (c : LEFCellInfo_t)
    (n : String) (ha : r.m_parseCell = some a) (hc : r.cellHeap[a]? = some c) :
    (∃ r1, PRLEFReader.doIntegrityChecks r = some r1
        ∧ r1.m_parseCell = some a
        ∧ r1.cellHeap[a]?
            = some { c with
                m_foreign := if c.m_foreign = "" then c.m_name else c.m_foreign })
      ∧ (∃ r2, PRLEFReader.onMacro n r = some r2
        ∧ r2.cellHeap[a]?
            = some { c with
                m_foreign := if c.m_foreign = "" then c.m_name else c.m_foreign })
      ∧ ((c.m_foreign ≠ "" ∨ c.m_name ≠ "") →
          (if c.m_foreign = "" then c.m_name else c.m_foreign) ≠ "") := by
  have hlt : a < r.cellHeap.length := PRLEFReader.getElem?_lt_of_eq_some _ _ _ hc
  have hchk := PRLEFReader.doIntegrityChecks_open r a c ha hc
  refine ⟨⟨_, hchk, ha, ?_⟩, ?_, ?_⟩
  · simp [hlt]
  · unfold PRLEFReader.onMacro
    simp only [ha, hchk]
    cases hl : r.m_cells.lookup n with
    | some b => simp [hl, hlt]
    | none =>
      simp only [hl, ne_eq, reduceCtorEq, not_false_eq_true, ↓reduceIte]
      refine ⟨_, rfl, ?_⟩
      rw [List.getElem?_append_left (by simpa using hlt)]
      simp [hlt]
  · intro h
    by_cases hf : c.m_foreign = ""
    · rcases h with h | h
      · exact absurd hf h
      · simpa [hf] using h
    · simp [hf]

/-- C7 (amended) at the open cell "B" of a two-cell builder: its empty
foreign-name becomes "B". -/
theorem C7_witness :
    ∃ r1, PRLEFReader.doIntegrityChecks twoCellsW = some r1
      ∧ r1.m_parseCell = some 1
      ∧ r1.cellHeap[1]?.map LEFCellInfo_t.m_foreign = some "B" := by
  obtain ⟨⟨r1, h1, h2, h3⟩, -, -⟩ :=
    C7_integrity_foreign_default twoCellsW 1 { LEFCellInfo_t.new with m_name := "B" } "C"
      (by decide) (by decide)
  exact ⟨r1, h1, h2, by rw [h3]; decide⟩

/-- C8: macro-start with a name already registered at address `a` succeeds,
makes that record the open cell, keeps its name, width, height, symmetry,
filler flag and pins, and leaves the cell map (hence the number of cells) and
the heap size unchanged; pin-start with a name already present in the open cell
succeeds, makes the existing pin record the open pin and changes neither the
pin records nor the cell records. -/
theorem C8_reopen_preserves_records :
    (∀ (r : PRLEFReader) (name : String) (a : Nat) (c : LEFCellInfo_t),
        r.m_cells.lookup name = some a → r.cellHeap[a]? = some c →
        (∀ b, r.m_parseCell = some b → b < r.cellHeap.length) →
        ∃ r1 c1, PRLEFReader.onMacro name r = some r1
          ∧ r1.m_parseCell = some a ∧ r1.cellHeap[a]? = some c1
          ∧ c1.m_name = c.m_name ∧ c1.m_sx = c.m_sx ∧ c1.m_sy = c.m_sy
          ∧ c1.m_symmetry = c.m_symmetry ∧ c1.m_isFiller = c.m_isFiller
          ∧ c1.m_pins = c.m_pins
          ∧ r1.m_cells = r.m_cells ∧ r1.m_cells.length = r.m_cells.length
          ∧ r1.cellHeap.length = r.cellHeap.length ∧ r1.pinHeap = r.pinHeap)
      ∧ (∀ (r : PRLEFReader) (pinName : String) (a q : Nat) (c : LEFCellInfo_t),
        r.m_parseCell = some a → r.cellHeap[a]? = some c →
        c.m_pins.lookup pinName = some q →
        ∃ r1, PRLEFReader.onPin pinName r = some r1
          ∧ r1.m_parsePin = some q ∧ r1.pinHeap = r.pinHeap
          ∧ r1.cellHeap = r.cellHeap ∧ r1.cellHeap[a]? = some c
          ∧ r1.m_cells = r.m_cells ∧ r1.m_parseCell = some a) := by
  constructor
  · intro r name a c hreg hc hopen
    have hlt : a < r.cellHeap.length := PRLEFReader.getElem?_lt_of_eq_some _ _ _ hc
    cases hp : r.m_parseCell with
    | none =>
      refine ⟨{ r with m_parseCell := some a }, c, ?_, rfl, hc, rfl, rfl, rfl, rfl, rfl, rfl,
        rfl, rfl, rfl, rfl⟩
      simp [PRLEFReader.onMacro, hp, hreg]
    | some b =>
      have hb : b < r.cellHeap.length := hopen b hp
      obtain ⟨cb, hcb⟩ : ∃ cb, r.cellHeap[b]? = some cb :=
        ⟨_, List.getElem?_eq_getElem hb⟩
      have hchk := PRLEFReader.doIntegrityChecks_open r b cb hp hcb
      have hmacro : PRLEFReader.onMacro name r
          = some { r with
              cellHeap := r.cellHeap.set b
                { cb with m_foreign := if cb.m_foreign = "" then cb.m_name else cb.m_foreign }
              m_parseCell := some a } := by
        unfold PRLEFReader.onMacro
        simp only [hp, hchk]
        simp [hreg]
      by_cases hab : b = a
      · subst hab
        have hcc : cb = c := Option.some.inj (hcb.symm.trans hc)
        subst hcc
        refine ⟨_, { cb with m_foreign := if cb.m_foreign = "" then cb.m_name else cb.m_foreign },
          hmacro, rfl, ?_, rfl, rfl, rfl, rfl, rfl, rfl, rfl, rfl, ?_, rfl⟩
        · simp [hb]
        · simp
      · refine ⟨_, c, hmacro, rfl, ?_, rfl, rfl, rfl, rfl, rfl, rfl, rfl, rfl, ?_, rfl⟩
        · simp [List.getElem?_set_ne hab, hc]
        · simp
  · intro r pinName a q c ha hc hpin
    refine ⟨{ r with m_parsePin := some q }, ?_, rfl, rfl, rfl, hc, rfl, ha⟩
    simp [PRLEFReader.onPin, ha, hc, hpin]

/-- C8 on the builder reached by the stream `twoCellsEventsW`: macro-start("A")
reopens the record of "A" with its data intact, and pin-start("P") on the
reopened cell reopens its pin; two cells and one pin before and after. -/
theorem C8_witness :
    PRLEFReader.run twoCellsEventsW PRLEFReader.new = some twoCellsW
      ∧ PRLEFReader.onMacro "A" twoCellsW = some reopenedW
      ∧ twoCellsW.cellHeap[0]? = reopenedW.cellHeap[0]?
      ∧ reopenedW.m_cells.length = twoCellsW.m_cells.length
      ∧ PRLEFReader.onPin "P" reopenedW = some reopenedW := by
  obtain ⟨r1, c1, h1, -⟩ :=
    C8_reopen_preserves_records.1 twoCellsW "A" 0
      { m_name := "P", m_foreign := "P", m_sx := 3, m_sy := 4, m_symmetry := "X Y",
        m_isFiller := true, m_pins := [("P", 0)] }
      (by decide) (by decide) (by decide)
  obtain ⟨r2, h2, -⟩ :=
    C8_reopen_preserves_records.2 reopenedW "P" 0 0
      { m_name := "P", m_foreign := "P", m_sx := 3, m_sy := 4, m_symmetry := "X Y",
        m_isFiller := true, m_pins := [("P", 0)] }
      (by decide) (by decide) (by decide)
  have e1 : r1 = reopenedW := Option.some.inj (h1.symm.trans (by decide))
  have e2 : r2 = reopenedW := Option.some.inj (h2.symm.trans (by decide))
  exact ⟨by decide, e1 ▸ h1, by decide, by decide, e2 ▸ h2⟩

/-- C9 (code at the failing input): after MACRO A, PIN X, MACRO B, PIN X the
database holds two distinct records, under the keys "A" and "B", and both have
the name field "X". -/
theorem C9_duplicate_name_fields :
    (PRLEFReader.run sharedPinNameW PRLEFReader.new).map
        (fun r => (r.m_cells, r.registered.map (Option.map LEFCellInfo_t.m_name)))
      = some ([("A", 0), ("B", 1)], [some "X", some "X"]) := by
  decide

/-- C10: with no open cell, size, foreign and symmetry complete and return the
builder unchanged (database, units and both cursors). -/
theorem C10_no_open_cell_noop (r : PRLEFReader) (sx sy ox oy : ℚ) (f sym : String)
    (h : r.m_parseCell = none) :
    PRLEFReader.onSize sx sy r = some r
      ∧ PRLEFReader.onForeign f ox oy r = some r
      ∧ PRLEFReader.onSymmetry sym r = some r := by
  simp [PRLEFReader.onSize, PRLEFReader.onForeign, PRLEFReader.onSymmetry, h]

/-- C10 on the empty builder. -/
theorem C10_witness :
    PRLEFReader.onSize 3 4 PRLEFReader.new = some PRLEFReader.new
      ∧ PRLEFReader.onForeign "F" 0 0 PRLEFReader.new = some PRLEFReader.new
      ∧ PRLEFReader.onSymmetry "X Y" PRLEFReader.new = some PRLEFReader.new :=
  C10_no_open_cell_noop PRLEFReader.new 3 4 0 0 "F" "X Y" rfl

namespace PRLEFReader

theorem contains_iff_infix (hay needle : String) :
    contains hay needle = true ↔ needle.data <:+: hay.data := by
  unfold contains
  rw [List.any_eq_true, List.infix_iff_prefix_suffix]
  constructor
  · rintro ⟨t, ht, hp⟩
    exact ⟨t, List.isPrefixOf_iff_prefix.1 hp, (List.mem_tails _ _).1 ht⟩
  · rintro ⟨t, hp, ht⟩
    exact ⟨t, (List.mem_tails _ _).2 ht, List.isPrefixOf_iff_prefix.2 hp⟩

end PRLEFReader

/-- C11 (code at the failing input): on the empty builder, which has no open
cell, `class` and `pin-start` dereference the null cursor and fault, while the
guarded sibling `size` returns the builder unchanged. -/
theorem C11_unguarded_null_dereference :
    PRLEFReader.onClass "CORE" PRLEFReader.new = none
      ∧ PRLEFReader.onPin "VDD" PRLEFReader.new = none
      ∧ PRLEFReader.onSize 1 1 PRLEFReader.new = some PRLEFReader.new := by
  decide

/-- C12: with an open pin `p` at address `q`, pin-direction(s) succeeds and
stores 0 (INPUT) when `s` contains "INPUT", otherwise 1 (OUTPUT) when `s`
contains "OUTPUT", otherwise 2 (OTHER); "INPUT" gives 0, "OUTPUT" gives 1 and
"INOUT" gives 2; the other fields of the pin, every other pin record, the cell
records, the cell map, the cursors and the units are unchanged. -/
theorem C12_pin_direction (r : PRLEFReader) (s : String) (q : Nat) (p : LEFPinInfo_t)
    (hq : r.m_parsePin = some q) (hp : r.pinHeap[q]? = some p) :
    (∃ r1, PRLEFReader.onPinDirection s r = some r1
        ∧ r1.pinHeap[q]?
            = some { p with
                m_dir := if "INPUT".data <:+: s.data then 0
                  else if "OUTPUT".data <:+: s.data then 1 else 2 }
        ∧ (∀ j, j ≠ q → r1.pinHeap[j]? = r.pinHeap[j]?)
        ∧ r1.pinHeap.length = r.pinHeap.length
        ∧ r1.cellHeap = r.cellHeap ∧ r1.m_cells = r.m_cells
        ∧ r1.m_parseCell = r.m_parseCell ∧ r1.m_parsePin = r.m_parsePin
        ∧ r1.m_lefDatabaseUnits = r.m_lefDatabaseUnits)
      ∧ (s = "INPUT" →
          (PRLEFReader.onPinDirection s r).map (fun r1 => r1.pinHeap[q]?)
            = some (some { p with m_dir := 0 }))
      ∧ (s = "OUTPUT" →
          (PRLEFReader.onPinDirection s r).map (fun r1 => r1.pinHeap[q]?)
            = some (some { p with m_dir := 1 }))
      ∧ (s = "INOUT" →
          (PRLEFReader.onPinDirection s r).map (fun r1 => r1.pinHeap[q]?)
            = some (some { p with m_dir := 2 })) := by
  have hlt : q < r.pinHeap.length := PRLEFReader.getElem?_lt_of_eq_some _ _ _ hp
  have hrun : PRLEFReader.onPinDirection s r
      = some { r with
          pinHeap := r.pinHeap.set q
            { p with
              m_dir := if PRLEFReader.contains s "INPUT" then 0
                else if PRLEFReader.contains s "OUTPUT" then 1 else 2 } } := by
    simp [PRLEFReader.onPinDirection, hq, hp]
  refine ⟨⟨_, hrun, ?_, ?_, ?_, rfl, rfl, rfl, rfl, rfl⟩, ?_, ?_, ?_⟩
  · simp [hlt, PRLEFReader.contains_iff_infix]
  · intro j hj
    simp [List.getElem?_set_ne (Ne.symm hj)]
  · simp
  · intro hs
    subst hs
    have h1 : PRLEFReader.contains "INPUT" "INPUT" = true := by decide
    simp [hrun, hlt, h1]
  · intro hs
    subst hs
    have h1 : PRLEFReader.contains "OUTPUT" "INPUT" = false := by decide
    have h2 : PRLEFReader.contains "OUTPUT" "OUTPUT" = true := by decide
    simp [hrun, hlt, h1, h2]
  · intro hs
    subst hs
    have h1 : PRLEFReader.contains "INOUT" "INPUT" = false := by decide
    have h2 : PRLEFReader.contains "INOUT" "OUTPUT" = false := by decide
    simp [hrun, hlt, h1, h2]

/-- C12 on the builder `reopenedW`, whose open pin has direction 1: the
direction string "INOUT" stores 2 and "INPUT" stores 0. -/
theorem C12_witness :
    (PRLEFReader.onPinDirection "INOUT" reopenedW).map (fun r1 => r1.pinHeap[0]?)
        = some (some { m_name := "", m_dir := 2, m_use := 2, m_class := 1 })
      ∧ (PRLEFReader.onPinDirection "INPUT" reopenedW).map (fun r1 => r1.pinHeap[0]?)
        = some (some { m_name := "", m_dir := 0, m_use := 2, m_class := 1 }) :=
  ⟨(C12_pin_direction reopenedW "INOUT" 0
      { m_name := "", m_dir := 1, m_use := 2, m_class := 1 } rfl rfl).2.2.2 rfl,
    (C12_pin_direction reopenedW "INPUT" 0
      { m_name := "", m_dir := 1, m_use := 2, m_class := 1 } rfl rfl).2.1 rfl⟩

/-- C13: with an open pin `p` at address `q`, pin-use(s) succeeds and stores 0
(SIGNAL) when `s` contains "SIGNAL", otherwise 1 (POWER) when it contains
"POWER", otherwise 2 (GROUND) when it contains "GROUND", otherwise 0; and
pin-layer-class(s) succeeds, stores class 1 (CORE) when `s` contains "CORE" and
otherwise returns the builder unchanged. -/
theorem C13_pin_use_and_layer_class (r : PRLEFReader) (s : String) (q : Nat)
    (p : LEFPinInfo_t) (hq : r.m_parsePin = some q) (hp : r.pinHeap[q]? = some p) :
    (∃ r1, PRLEFReader.onPinUse s r = some r1
        ∧ r1.pinHeap[q]?
            = some { p with
                m_use := if "SIGNAL".data <:+: s.data then 0
                  else if "POWER".data <:+: s.data then 1
                  else if "GROUND".data <:+: s.data then 2 else 0 }
        ∧ (∀ j, j ≠ q → r1.pinHeap[j]? = r.pinHeap[j]?)
        ∧ r1.cellHeap = r.cellHeap ∧ r1.m_cells = r.m_cells
        ∧ r1.m_parseCell = r.m_parseCell ∧ r1.m_parsePin = r.m_parsePin)
      ∧ ("CORE".data <:+: s.data →
          ∃ r1, PRLEFReader.onPinLayerClass s r = some r1
            ∧ r1.pinHeap[q]? = some { p with m_class := 1 }
            ∧ (∀ j, j ≠ q → r1.pinHeap[j]? = r.pinHeap[j]?)
            ∧ r1.cellHeap = r.cellHeap ∧ r1.m_cells = r.m_cells
            ∧ r1.m_parseCell = r.m_parseCell ∧ r1.m_parsePin = r.m_parsePin)
      ∧ (¬ "CORE".data <:+: s.data → PRLEFReader.onPinLayerClass s r = some r) := by
  have hlt : q < r.pinHeap.length := PRLEFReader.getElem?_lt_of_eq_some _ _ _ hp
  have hrun : PRLEFReader.onPinUse s r
      = some { r with
          pinHeap := r.pinHeap.set q
            { p with
              m_use := if PRLEFReader.contains s "SIGNAL" then 0
                else if PRLEFReader.contains s "POWER" then 1
                else if PRLEFReader.contains s "GROUND" then 2 else 0 } } := by
    simp [PRLEFReader.onPinUse, hq, hp]
  refine ⟨⟨_, hrun, ?_, ?_, rfl, rfl, rfl, rfl⟩, ?_, ?_⟩
  · simp [hlt, PRLEFReader.contains_iff_infix]
  · intro j hj
    simp [List.getElem?_set_ne (Ne.symm hj)]
  · intro hc
    have hcore : PRLEFReader.contains s "CORE" = true :=
      (PRLEFReader.contains_iff_infix s "CORE").2 hc
    refine ⟨{ r with pinHeap := r.pinHeap.set q { p with m_class := 1 } }, ?_, ?_, ?_,
      rfl, rfl, rfl, rfl⟩
    · simp [PRLEFReader.onPinLayerClass, hq, hp, hcore]
    · simp [hlt]
    · intro j hj
      simp [List.getElem?_set_ne (Ne.symm hj)]
  · intro hc
    have hcore : PRLEFReader.contains s "CORE" = false := by
      cases h : PRLEFReader.contains s "CORE"
      · rfl
      · exact absurd ((PRLEFReader.contains_iff_infix s "CORE").1 h) hc
    simp [PRLEFReader.onPinLayerClass, hq, hp, hcore]

/-- C13 on the builder `reopenedW`, whose open pin has use 2 and class 1: the
use string "ANALOG" stores the default 0, and the layer class "PAD" leaves the
builder unchanged. -/
theorem C13_witness :
    (∃ r1, PRLEFReader.onPinUse "ANALOG" reopenedW = some r1
        ∧ r1.pinHeap[0]? = some { m_name := "", m_dir := 1, m_use := 0, m_class := 1 })
      ∧ PRLEFReader.onPinLayerClass "PAD" reopenedW = some reopenedW := by
  have h := C13_pin_use_and_layer_class reopenedW "ANALOG" 0
    { m_name := "", m_dir := 1, m_use := 2, m_class := 1 } rfl rfl
  have h2 := C13_pin_use_and_layer_class reopenedW "PAD" 0
    { m_name := "", m_dir := 1, m_use := 2, m_class := 1 } rfl rfl
  obtain ⟨⟨r1, e1, e2, -⟩, -, -⟩ := h
  refine ⟨⟨r1, e1, ?_⟩, h2.2.2 ?_⟩
  · rw [e2]
    have n1 : ¬ "SIGNAL".data <:+: "ANALOG".data := by
      rw [← PRLEFReader.contains_iff_infix]; decide
    have n2 : ¬ "POWER".data <:+: "ANALOG".data := by
      rw [← PRLEFReader.contains_iff_infix]; decide
    have n3 : ¬ "GROUND".data <:+: "ANALOG".data := by
      rw [← PRLEFReader.contains_iff_infix]; decide
    simp [n1, n2, n3]
  · rw [← PRLEFReader.contains_iff_infix]; decide

/-- C14: with an open cell `c` at address `a`, class(s) succeeds and sets the
cell's filler flag to true exactly when `s` contains "SPACER" as a substring,
whatever the flag was before ("PAD SPACER" gives true, "CORE" gives false); the
other fields of the cell, every other cell record, the pin records, the cell
map, the cursors and the units are unchanged. -/
theorem C14_class_sets_filler (r : PRLEFReader) (s : String) (a : Nat) (c : LEFCellInfo_t)
    (ha : r.m_parseCell = some a) (hc : r.cellHeap[a]? = some c) :
    (∃ r1 b, PRLEFReader.onClass s r = some r1
        ∧ r1.cellHeap[a]? = some { c with m_isFiller := b }
        ∧ (b = true ↔ "SPACER".data <:+: s.data)
        ∧ (∀ j, j ≠ a → r1.cellHeap[j]? = r.cellHeap[j]?)
        ∧ r1.pinHeap = r.pinHeap ∧ r1.m_cells = r.m_cells
        ∧ r1.m_parseCell = r.m_parseCell ∧ r1.m_parsePin = r.m_parsePin
        ∧ r1.m_lefDatabaseUnits = r.m_lefDatabaseUnits)
      ∧ (s = "PAD SPACER" →
          (PRLEFReader.onClass s r).map (fun r1 => r1.cellHeap[a]?)
            = some (some { c with m_isFiller := true }))
      ∧ (s = "CORE" →
          (PRLEFReader.onClass s r).map (fun r1 => r1.cellHeap[a]?)
            = some (some { c with m_isFiller := false })) := by
  have hlt : a < r.cellHeap.length := PRLEFReader.getElem?_lt_of_eq_some _ _ _ hc
  have hrun : PRLEFReader.onClass s r
      = some { r with
          cellHeap := r.cellHeap.set a
            { c with m_isFiller := PRLEFReader.contains s "SPACER" } } := by
    simp [PRLEFReader.onClass, ha, hc]
  refine ⟨⟨_, PRLEFReader.contains s "SPACER", hrun, ?_, ?_, ?_, rfl, rfl, rfl, rfl, rfl⟩,
    ?_, ?_⟩
  · simp [hlt]
  · exact PRLEFReader.contains_iff_infix s "SPACER"
  · intro j hj
    simp [List.getElem?_set_ne (Ne.symm hj)]
  · intro hs
    subst hs
    have h1 : PRLEFReader.contains "PAD SPACER" "SPACER" = true := by decide
    simp [hrun, hlt, h1]
  · intro hs
    subst hs
    have h1 : PRLEFReader.contains "CORE" "SPACER" = false := by decide
    simp [hrun, hlt, h1]

/-- C14 on the builder `reopenedW`, whose open cell "A" is a filler: class
"CORE" clears the flag and class "PAD SPACER" sets it. -/
theorem C14_witness :
    (PRLEFReader.onClass "CORE" reopenedW).map
        (fun r1 => r1.cellHeap[0]?.map LEFCellInfo_t.m_isFiller) = some (some false)
      ∧ (PRLEFReader.onClass "PAD SPACER" reopenedW).map
        (fun r1 => r1.cellHeap[0]?.map LEFCellInfo_t.m_isFiller) = some (some true) := by
  have h1 := (C14_class_sets_filler reopenedW "CORE" 0
    { m_name := "P", m_foreign := "P", m_sx := 3, m_sy := 4, m_symmetry := "X Y",
      m_isFiller := true, m_pins := [("P", 0)] } rfl rfl).2.2 rfl
  have h2 := (C14_class_sets_filler reopenedW "PAD SPACER" 0
    { m_name := "P", m_foreign := "P", m_sx := 3, m_sy := 4, m_symmetry := "X Y",
      m_isFiller := true, m_pins := [("P", 0)] } rfl rfl).2.1 rfl
  constructor
  · cases h : PRLEFReader.onClass "CORE" reopenedW with
    | none => rw [h] at h1; cases h1
    | some r1 =>
      rw [h] at h1
      simp only [Option.map_some', Option.some.injEq] at h1
      simp [h1]
  · cases h : PRLEFReader.onClass "PAD SPACER" reopenedW with
    | none => rw [h] at h2; cases h2
    | some r1 =>
      rw [h] at h2
      simp only [Option.map_some', Option.some.injEq] at h2
      simp [h2]

theorem writeToFile_eq_join (env : FloatEnv) (w : CSVWriter) :
    writeToFile env w = String.join (reportLines env w) := by
  apply String.ext
  simp [writeToFile, CSVWriter.str, reportLines, headerLines, String.data_join]

theorem render_ends (env : FloatEnv) (row : Row) :
    ∃ body, Row.render env row = body ++ ",\n" :=
  ⟨_, rfl⟩

theorem headerLines_end (designName line : String) (h : line ∈ headerLines designName) :
    ∃ body, line = body ++ ",\n" := by
  simp only [headerLines, List.mem_cons, List.mem_singleton, List.not_mem_nil, or_false] at h
  rcases h with h | h | h | h | h
  · exact ⟨"Back to Index", by rw [h]; decide⟩
  · refine ⟨",Pin Assignment (" ++ designName ++ ")", ?_⟩
    rw [h, String.append_assoc (",Pin Assignment (" ++ designName) ")" ",\n"]
    rfl
  · exact ⟨"", by rw [h]; decide⟩
  · exact ⟨",,,,,Pin Name", by rw [h]; decide⟩
  · exact ⟨",List,Pin No.,Pin Assign,Association,I/O name,I/O Cell,-,Bond Name,Bond Cell,x,y,rotation,cx,cy",
      by rw [h]; decide⟩

/-- C15: the text written on finalization is the concatenation of, in this
order, the line "Back to Index,", the line ",Pin Assignment (<design name>),"
with the design name of the most recent `writePadring` call, the line ",", the
line ",,,,,Pin Name,", the column-header line, and the buffered rows in buffer
order; every one of these lines ends with a comma followed by a newline. -/
theorem C15_finalization_output (env : FloatEnv) (p : PadringDB) (w : CSVWriter) :
    writeToFile env (writePadring env p w)
        = String.join
            (["Back to Index,\n",
              ",Pin Assignment (" ++ p.m_designName ++ "),\n",
              ",\n",
              ",,,,,Pin Name,\n",
              ",List,Pin No.,Pin Assign,Association,I/O name,I/O Cell,-,Bond Name,Bond Cell,x,y,rotation,cx,cy,\n"]
              ++ (writePadring env p w).m_ss.map (Row.render env))
      ∧ (∀ line ∈ reportLines env (writePadring env p w), ∃ body, line = body ++ ",\n")
      ∧ reportLines env (writePadring env p w)
          = headerLines p.m_designName ++ (writePadring env p w).m_ss.map (Row.render env)
      ∧ writeToFile env CSVWriter.new = String.join (headerLines "No Name") := by
  have hname : (writePadring env p w).m_designName = p.m_designName := by
    rw [writePadring_eq_walk]
  refine ⟨?_, ?_, ?_, ?_⟩
  · rw [writeToFile_eq_join, reportLines, hname]
    rfl
  · intro line hl
    simp only [reportLines, List.mem_append, List.mem_map] at hl
    rcases hl with hl | ⟨row, -, hrow⟩
    · exact headerLines_end _ _ hl
    · rw [← hrow]
      exact render_ends env row
  · rw [reportLines, hname]
  · rw [writeToFile_eq_join]
    simp [reportLines, CSVWriter.new]

/-- C16 (code at the failing input): after MACRO A, PIN P, DIRECTION INPUT,
MACRO B the open cell is "B", which has no pin, and the pin "P" of "A" has
direction 0; the following DIRECTION OUTPUT changes the direction of that pin
of "A" to 1.  On MACRO A followed at once by DIRECTION INPUT the handler
dereferences the pin cursor that nothing has set. -/
theorem C16_stale_pin_cursor :
    (PRLEFReader.run (stalePinEventsW.take 4) PRLEFReader.new).map
        (fun r => (r.m_parseCell, r.m_cells)) = some (some 1, [("A", 0), ("B", 1)])
      ∧ (PRLEFReader.run (stalePinEventsW.take 4) PRLEFReader.new).map
        (fun r => r.cellHeap.map LEFCellInfo_t.m_pins) = some [[("P", 0)], []]
      ∧ (PRLEFReader.run (stalePinEventsW.take 4) PRLEFReader.new).map
        (fun r => r.pinHeap.map LEFPinInfo_t.m_dir) = some [0]
      ∧ (PRLEFReader.run stalePinEventsW PRLEFReader.new).map
        (fun r => (r.m_parseCell, r.m_cells)) = some (some 1, [("A", 0), ("B", 1)])
      ∧ (PRLEFReader.run stalePinEventsW PRLEFReader.new).map
        (fun r => r.cellHeap.map LEFCellInfo_t.m_pins) = some [[("P", 0)], []]
      ∧ (PRLEFReader.run stalePinEventsW PRLEFReader.new).map
        (fun r => r.pinHeap.map LEFPinInfo_t.m_dir) = some [1]
      ∧ PRLEFReader.run [.macroStart "A", .pinDirection "INPUT"] PRLEFReader.new = none := by
  refine ⟨?_, ?_, ?_, ?_, ?_, ?_, ?_⟩ <;> decide

/-- C17: with an open cell `c` at address `a`, pin-start(p) for a name not yet
in the cell's pin map succeeds, appends a freshly constructed pin record (its
fields are those the constructor gives, its name is not assigned), registers it
under key `p`, makes it the open pin and assigns `p` to the CELL's name field;
for a name already in the pin map the cell record, its name included, is
unchanged. -/
theorem C17_pin_start_renames_cell (r : PRLEFReader) (p : String) (a : Nat)
    (c : LEFCellInfo_t) (ha : r.m_parseCell = some a) (hc : r.cellHeap[a]? = some c) :
    (c.m_pins.lookup p = none →
        ∃ r1, PRLEFReader.onPin p r = some r1
          ∧ r1.cellHeap[a]?
              = some { c with m_name := p, m_pins := c.m_pins ++ [(p, r.pinHeap.length)] }
          ∧ (c.m_pins ++ [(p, r.pinHeap.length)]).lookup p = some r.pinHeap.length
          ∧ r1.pinHeap = r.pinHeap ++ [LEFPinInfo_t.new]
          ∧ r1.pinHeap[r.pinHeap.length]? = some LEFPinInfo_t.new
          ∧ LEFPinInfo_t.new.m_name = ""
          ∧ r1.m_parsePin = some r.pinHeap.length
          ∧ r1.m_parseCell = some a ∧ r1.m_cells = r.m_cells)
      ∧ (∀ q, c.m_pins.lookup p = some q →
        ∃ r1, PRLEFReader.onPin p r = some r1
          ∧ r1.cellHeap[a]? = some c ∧ r1.cellHeap = r.cellHeap
          ∧ r1.pinHeap = r.pinHeap ∧ r1.m_parsePin = some q) := by
  have hlt : a < r.cellHeap.length := PRLEFReader.getElem?_lt_of_eq_some _ _ _ hc
  constructor
  · intro hnew
    refine ⟨{ r with
        pinHeap := r.pinHeap ++ [LEFPinInfo_t.new]
        cellHeap := r.cellHeap.set a
          { c with m_name := p, m_pins := c.m_pins ++ [(p, r.pinHeap.length)] }
        m_parsePin := some r.pinHeap.length }, ?_, ?_, ?_, rfl, ?_, rfl, rfl, ha, rfl⟩
    · simp [PRLEFReader.onPin, ha, hc, hnew]
    · simp [hlt]
    · rw [List.lookup_append, hnew]
      simp
    · simp
  · intro q hq
    refine ⟨{ r with m_parsePin := some q }, ?_, hc, rfl, rfl, rfl⟩
    simp [PRLEFReader.onPin, ha, hc, hq]

/-- C17 on the builder `twoCellsW`, whose open cell "B" has no pin: pin-start
("Q") sets the name field of the cell to "Q" and leaves the new pin record
unnamed; and pin-start("P") on `reopenedW`, whose open cell has the pin "P",
leaves the builder as it is. -/
theorem C17_witness :
    (∃ r1, PRLEFReader.onPin "Q" twoCellsW = some r1
        ∧ r1.cellHeap[1]?.map LEFCellInfo_t.m_name = some "Q"
        ∧ r1.pinHeap[1]?.map LEFPinInfo_t.m_name = some "")
      ∧ (∃ r1, PRLEFReader.onPin "P" reopenedW = some r1
        ∧ r1.cellHeap = reopenedW.cellHeap) := by
  obtain ⟨r1, h1, h2, -, -, h3, -⟩ :=
    (C17_pin_start_renames_cell twoCellsW "Q" 1 { LEFCellInfo_t.new with m_name := "B" }
      (by decide) (by decide)).1 (by decide)
  obtain ⟨r2, g1, -, g2, -⟩ :=
    (C17_pin_start_renames_cell reopenedW "P" 0
      { m_name := "P", m_foreign := "P", m_sx := 3, m_sy := 4, m_symmetry := "X Y",
        m_isFiller := true, m_pins := [("P", 0)] }
      (by decide) (by decide)).2 0 (by decide)
  refine ⟨⟨r1, h1, ?_, ?_⟩, ⟨r2, g1, g2⟩⟩
  · rw [h2]; rfl
  · have h4 : twoCellsW.pinHeap.length = 1 := by decide
    rw [h4] at h3
    rw [h3]; rfl

theorem rowsFrom_shift (env : FloatEnv) (n k : Nat) (vs : List (LayoutItem × side_t)) :
    rowsFrom env (k + n) vs
      = (rowsFrom env k vs).map (fun row => { row with seq := row.seq + n }) := by
  induction vs generalizing k with
  | nil => simp [rowsFrom]
  | cons v vs ih =>
    by_cases hq : qualifies v.1 = true
    · have hk : k + n + 1 = k + 1 + n := Nat.add_right_comm k n 1
      simp only [rowsFrom, hq, if_true, List.map_cons, hk, ih (k + 1)]
      rfl
    · simp [rowsFrom, hq, ih k]

/-- C19: on one writer, `writePadring` on a ring `r1` and then on a ring `r2`
buffers the n1 rows of `r1`, numbered 1 to n1, followed by the rows `r2` gives on
a fresh writer with n1 added to their sequence numbers, so numbered n1 + 1 to
n1 + n2 (n1, n2 the qualifying-item counts); the counter ends at n1 + n2 and the
design line written on finalization carries the design name of `r2`. -/
theorem C19_writer_state_persists (env : FloatEnv) (r1 r2 : PadringDB) :
    (writePadring env r2 (writePadring env r1 CSVWriter.new)).m_ss
        = (writePadring env r1 CSVWriter.new).m_ss
          ++ (writePadring env r2 CSVWriter.new).m_ss.map
              (fun row => { row with seq := row.seq + qualCount r1 })
      ∧ (writePadring env r1 CSVWriter.new).m_ss.length = qualCount r1
      ∧ (writePadring env r2 CSVWriter.new).m_ss.length = qualCount r2
      ∧ (writePadring env r2 (writePadring env r1 CSVWriter.new)).m_ss.map Row.seq
          = List.range' 1 (qualCount r1) ++ List.range' (qualCount r1 + 1) (qualCount r2)
      ∧ (writePadring env r2 (writePadring env r1 CSVWriter.new)).m_side
          = qualCount r1 + qualCount r2
      ∧ (writePadring env r2 (writePadring env r1 CSVWriter.new)).m_designName
          = r2.m_designName
      ∧ writeToFile env (writePadring env r2 (writePadring env r1 CSVWriter.new))
          = String.join (headerLines r2.m_designName
              ++ (writePadring env r2 (writePadring env r1 CSVWriter.new)).m_ss.map
                  (Row.render env)) := by
  have h1 : writePadring env r1 CSVWriter.new
      = { m_side := qualCount r1, m_ss := rowsFrom env 0 (visitOrder r1),
          m_designName := r1.m_designName } := by
    rw [writePadring_eq_walk, writeWalk_eq]
    simp [CSVWriter.new, visitOrder_countP]
  have h2 : (writePadring env r2 CSVWriter.new).m_ss = rowsFrom env 0 (visitOrder r2) := by
    rw [writePadring_eq_walk, writeWalk_eq]
    simp [CSVWriter.new]
  have h12 : writePadring env r2 (writePadring env r1 CSVWriter.new)
      = { m_side := qualCount r1 + qualCount r2,
          m_ss := rowsFrom env 0 (visitOrder r1) ++ rowsFrom env (qualCount r1) (visitOrder r2),
          m_designName := r2.m_designName } := by
    rw [h1, writePadring_eq_walk, writeWalk_eq]
    simp [visitOrder_countP]
  have hs1 := rowsFrom_seq env 0 (visitOrder r1)
  have hs2 := rowsFrom_seq env (qualCount r1) (visitOrder r2)
  have hs3 := rowsFrom_seq env 0 (visitOrder r2)
  rw [visitOrder_countP] at hs1 hs2 hs3
  refine ⟨?_, ?_, ?_, ?_, ?_, ?_, ?_⟩
  · rw [h12, h1, h2]
    have hsh := rowsFrom_shift env (qualCount r1) 0 (visitOrder r2)
    rw [Nat.zero_add] at hsh
    simp only [hsh]
  · rw [h1]
    simpa using congrArg List.length hs1
  · rw [h2]
    simpa using congrArg List.length hs3
  · rw [h12]
    simp only [List.map_append, hs1, hs2]
  · rw [h12]
  · rw [h12]
  · rw [writeToFile_eq_join, reportLines, h12]

/-- C19 at the ring `ringW` (8 qualifying items) followed by `ringCountW` (10):
the rows are numbered 1 to 18 and the design name is that of the second ring. -/
theorem C19_witness :
    (writePadring envW ringCountW (writePadring envW ringW CSVWriter.new)).m_ss.map Row.seq
        = [1, 2, 3, 4, 5, 6, 7, 8, 9, 10, 11, 12, 13, 14, 15, 16, 17, 18]
      ∧ (writePadring envW ringCountW (writePadring envW ringW CSVWriter.new)).m_designName
        = "top" := by
  have h := C19_writer_state_persists envW ringW ringCountW
  have hc1 : qualCount ringW = 8 := by decide
  have hc2 : qualCount ringCountW = 10 := by decide
  refine ⟨?_, h.2.2.2.2.2.1⟩
  rw [h.2.2.2.1, hc1, hc2]
  decide

namespace PRLEFReader

/-! ### Shape of the result of each handler -/

theorem doIntegrityChecks_update (r r1 : PRLEFReader) (h : doIntegrityChecks r = some r1) :
    CellUpdate r r1 := by
  unfold doIntegrityChecks at h
  split at h
  · exact Or.inl (Option.some.inj h).symm
  · rename_i a ha
    split at h
    · cases h
    · rename_i c hc
      refine Or.inr ⟨a, c, _, ha, hc, ?_, (Option.some.inj h).symm⟩
      by_cases hf : c.m_foreign = "" <;> simp [hf]

theorem onSize_update (sx sy : ℚ) (r r1 : PRLEFReader) (h : onSize sx sy r = some r1) :
    CellUpdate r r1 := by
  unfold onSize at h
  split at h
  · exact Or.inl (Option.some.inj h).symm
  · rename_i a ha
    split at h
    · cases h
    · rename_i c hc
      refine Or.inr ⟨a, c, _, ha, hc, ?_, (Option.some.inj h).symm⟩
      rfl

theorem onForeign_update (f : String) (ox oy : ℚ) (r r1 : PRLEFReader)
    (h : onForeign f ox oy r = some r1) : CellUpdate r r1 := by
  unfold onForeign at h
  split at h
  · exact Or.inl (Option.some.inj h).symm
  · rename_i a ha
    split at h
    · cases h
    · rename_i c hc
      refine Or.inr ⟨a, c, _, ha, hc, ?_, (Option.some.inj h).symm⟩
      rfl

theorem onSymmetry_update (s : String) (r r1 : PRLEFReader)
    (h : onSymmetry s r = some r1) : CellUpdate r r1 := by
  unfold onSymmetry at h
  split at h
  · exact Or.inl (Option.some.inj h).symm
  · rename_i a ha
    split at h
    · cases h
    · rename_i c hc
      refine Or.inr ⟨a, c, _, ha, hc, ?_, (Option.some.inj h).symm⟩
      rfl

theorem onClass_update (s : String) (r r1 : PRLEFReader)
    (h : onClass s r = some r1) : CellUpdate r r1 := by
  unfold onClass at h
  split at h
  · cases h
  · rename_i a ha
    split at h
    · cases h
    · rename_i c hc
      refine Or.inr ⟨a, c, _, ha, hc, ?_, (Option.some.inj h).symm⟩
      rfl

theorem onPinDirection_update (s : String) (r r1 : PRLEFReader)
    (h : onPinDirection s r = some r1) : PinUpdate r r1 := by
  unfold onPinDirection at h
  split at h
  · cases h
  · rename_i q hq
    split at h
    · cases h
    · rename_i p hp
      exact Or.inr ⟨q, _, hq, getElem?_lt_of_eq_some _ _ _ hp, (Option.some.inj h).symm⟩

theorem onPinUse_update (s : String) (r r1 : PRLEFReader)
    (h : onPinUse s r = some r1) : PinUpdate r r1 := by
  unfold onPinUse at h
  split at h
  · cases h
  · rename_i q hq
    split at h
    · cases h
    · rename_i p hp
      exact Or.inr ⟨q, _, hq, getElem?_lt_of_eq_some _ _ _ hp, (Option.some.inj h).symm⟩

theorem onPinLayerClass_update (s : String) (r r1 : PRLEFReader)
    (h : onPinLayerClass s r = some r1) : PinUpdate r r1 := by
  unfold onPinLayerClass at h
  split at h
  · cases h
  · rename_i q hq
    split at h
    · cases h
    · rename_i p hp
      split at h
      · exact Or.inr ⟨q, _, hq, getElem?_lt_of_eq_some _ _ _ hp, (Option.some.inj h).symm⟩
      · exact Or.inl (Option.some.inj h).symm

theorem onMacro_found_or_new (n : String) (r1 r2 : PRLEFReader)
    (h : (match r1.m_cells.lookup n with
      | some a => some { r1 with m_parseCell := some a }
      | none =>
        let a := r1.cellHeap.length
        some { r1 with
          cellHeap := r1.cellHeap ++ [{ LEFCellInfo_t.new with m_name := n }]
          m_cells := r1.m_cells ++ [(n, a)]
          m_parseCell := some a }) = some r2) :
    (∃ a, r1.m_cells.lookup n = some a ∧ r2 = { r1 with m_parseCell := some a })
      ∨ (r1.m_cells.lookup n = none
        ∧ r2 = { r1 with
            cellHeap := r1.cellHeap ++ [{ LEFCellInfo_t.new with m_name := n }]
            m_cells := r1.m_cells ++ [(n, r1.cellHeap.length)]
            m_parseCell := some r1.cellHeap.length }) := by
  split at h
  · rename_i a ha
    exact Or.inl ⟨a, ha, (Option.some.inj h).symm⟩
  · rename_i ha
    exact Or.inr ⟨ha, (Option.some.inj h).symm⟩

theorem onMacro_shape (n : String) (r r2 : PRLEFReader) (h : onMacro n r = some r2) :
    ∃ r1, CellUpdate r r1
      ∧ ((∃ a, r1.m_cells.lookup n = some a ∧ r2 = { r1 with m_parseCell := some a })
        ∨ (r1.m_cells.lookup n = none
          ∧ r2 = { r1 with
              cellHeap := r1.cellHeap ++ [{ LEFCellInfo_t.new with m_name := n }]
              m_cells := r1.m_cells ++ [(n, r1.cellHeap.length)]
              m_parseCell := some r1.cellHeap.length })) := by
  unfold onMacro at h
  split at h
  · cases h
  · rename_i r1 hr1
    refine ⟨r1, ?_, onMacro_found_or_new n r1 r2 h⟩
    by_cases hp : r.m_parseCell = none
    · simp only [hp, ne_eq, not_true_eq_false, if_false, Option.some.injEq] at hr1
      exact Or.inl hr1.symm
    · simp only [ne_eq, hp, not_false_eq_true, if_true] at hr1
      exact doIntegrityChecks_update r r1 hr1

theorem onPin_shape (p : String) (r r1 : PRLEFReader) (h : onPin p r = some r1) :
    ∃ a c, r.m_parseCell = some a ∧ r.cellHeap[a]? = some c
      ∧ ((∃ q, c.m_pins.lookup p = some q ∧ r1 = { r with m_parsePin := some q })
        ∨ (c.m_pins.lookup p = none
          ∧ r1 = { r with
              pinHeap := r.pinHeap ++ [LEFPinInfo_t.new]
              cellHeap := r.cellHeap.set a
                { c with m_name := p, m_pins := c.m_pins ++ [(p, r.pinHeap.length)] }
              m_parsePin := some r.pinHeap.length })) := by
  unfold onPin at h
  split at h
  · cases h
  · rename_i a ha
    split at h
    · cases h
    · rename_i c hc
      refine ⟨a, c, ha, hc, ?_⟩
      split at h
      · rename_i q hq
        exact Or.inl ⟨q, hq, (Option.some.inj h).symm⟩
      · rename_i hq
        exact Or.inr ⟨hq, (Option.some.inj h).symm⟩

end PRLEFReader

namespace PRLEFReader

/-! ### Lookup in an association list -/

theorem lookup_mem (l : List (String × Nat)) (k : String) (a : Nat)
    (h : l.lookup k = some a) : (k, a) ∈ l := by
  induction l with
  | nil => simp at h
  | cons kv l ih =>
    obtain ⟨k1, a1⟩ := kv
    rw [List.lookup_cons] at h
    by_cases hk : k = k1
    · subst hk
      simp only [beq_self_eq_true, Option.some.injEq] at h
      subst h
      exact List.mem_cons_self _ _
    · have hb : (k == k1) = false := by simpa using hk
      simp only [hb] at h
      exact List.mem_cons_of_mem _ (ih h)

theorem lookup_of_mem_nodup (l : List (String × Nat)) (k : String) (a : Nat)
    (hn : (l.map Prod.fst).Nodup) (h : (k, a) ∈ l) : l.lookup k = some a := by
  induction l with
  | nil => cases h
  | cons kv l ih =>
    obtain ⟨k1, a1⟩ := kv
    rw [List.map_cons, List.nodup_cons] at hn
    rw [List.lookup_cons]
    rcases List.mem_cons.1 h with h1 | h1
    · cases h1
      simp
    · have hk : k ≠ k1 := by
        intro hk
        subst hk
        exact hn.1 (List.mem_map.2 ⟨(k, a), h1, rfl⟩)
      have hb : (k == k1) = false := by simpa using hk
      simp only [hb]
      exact ih hn.2 h1

theorem lookup_none_iff (l : List (String × Nat)) (k : String) :
    l.lookup k = none ↔ k ∉ l.map Prod.fst := by
  rw [List.lookup_eq_none_iff]
  constructor
  · intro h hk
    obtain ⟨kv, hkv, hfst⟩ := List.mem_map.1 hk
    have := h kv hkv
    simp [hfst] at this
  · intro h kv hkv
    have hne : k ≠ kv.1 := fun he => h (List.mem_map.2 ⟨kv, hkv, he.symm⟩)
    simpa using hne

/-! ### The invariant is kept by every handler -/

theorem inv_new : Inv PRLEFReader.new := by
  refine ⟨?_, ?_, ?_, ?_, ?_⟩ <;> simp [PRLEFReader.new]

theorem cellUpdate_frame (r r1 : PRLEFReader) (h : CellUpdate r r1) :
    r1.m_cells = r.m_cells ∧ r1.m_parseCell = r.m_parseCell ∧ r1.m_parsePin = r.m_parsePin
      ∧ r1.pinHeap = r.pinHeap ∧ r1.cellHeap.length = r.cellHeap.length
      ∧ r1.m_lefDatabaseUnits = r.m_lefDatabaseUnits
      ∧ (∀ b, r.m_parseCell ≠ some b → r1.cellHeap[b]? = r.cellHeap[b]?) := by
  rcases h with h | ⟨a, c, c1, ha, hc, hp, h⟩
  · subst h
    exact ⟨rfl, rfl, rfl, rfl, rfl, rfl, fun _ _ => rfl⟩
  · subst h
    refine ⟨rfl, rfl, rfl, rfl, by simp, rfl, ?_⟩
    intro b hb
    have hab : a ≠ b := fun he => hb (he ▸ ha)
    simp [List.getElem?_set_ne hab]

theorem cellUpdate_inv (r r1 : PRLEFReader) (hi : Inv r) (h : CellUpdate r r1) : Inv r1 := by
  obtain ⟨h1, h2, h3, h4, h5⟩ := hi
  rcases h with h | ⟨a, c, c1, ha, hc, hp, h⟩
  · subst h
    exact ⟨h1, h2, h3, h4, h5⟩
  · subst h
    refine ⟨?_, h2, h3, h4, ?_⟩
    · intro kv hkv
      simpa using h1 kv hkv
    · intro c2 hc2 kv hkv
      rcases List.mem_or_eq_of_mem_set hc2 with hm | he
      · exact h5 c2 hm kv hkv
      · subst he
        rw [hp] at hkv
        exact h5 c (List.getElem?_mem hc) kv hkv

theorem pinUpdate_frame (r r1 : PRLEFReader) (h : PinUpdate r r1) :
    r1.m_cells = r.m_cells ∧ r1.m_parseCell = r.m_parseCell ∧ r1.m_parsePin = r.m_parsePin
      ∧ r1.cellHeap = r.cellHeap ∧ r1.pinHeap.length = r.pinHeap.length := by
  rcases h with h | ⟨q, p1, hq, hlt, h⟩
  · subst h
    exact ⟨rfl, rfl, rfl, rfl, rfl⟩
  · subst h
    exact ⟨rfl, rfl, rfl, rfl, by simp⟩

theorem pinUpdate_inv (r r1 : PRLEFReader) (hi : Inv r) (h : PinUpdate r r1) : Inv r1 := by
  obtain ⟨e1, e2, e3, e4, e5⟩ := pinUpdate_frame r r1 h
  obtain ⟨h1, h2, h3, h4, h5⟩ := hi
  refine ⟨?_, ?_, ?_, ?_, ?_⟩
  · rw [e1, e4]; exact h1
  · rw [e1, e2]; exact h2
  · rw [e1]; exact h3
  · rw [e3, e5]; exact h4
  · rw [e4, e5]; exact h5

theorem onMacro_inv (n : String) (r r2 : PRLEFReader) (hi : Inv r)
    (h : onMacro n r = some r2) : Inv r2 := by
  obtain ⟨r1, hu, hcase⟩ := onMacro_shape n r r2 h
  obtain ⟨h1, h2, h3, h4, h5⟩ := cellUpdate_inv r r1 hi hu
  rcases hcase with ⟨a, hl, he⟩ | ⟨hl, he⟩
  · subst he
    refine ⟨h1, ?_, h3, h4, h5⟩
    intro b hb
    have hab : a = b := Option.some.inj hb
    exact ⟨n, hab ▸ lookup_mem _ _ _ hl⟩
  · subst he
    refine ⟨?_, ?_, ?_, h4, ?_⟩
    · intro kv hkv
      rcases List.mem_append.1 hkv with hm | hm
      · have := h1 kv hm
        simp only [List.length_append, List.length_singleton]
        omega
      · rw [List.mem_singleton] at hm
        subst hm
        simp
    · intro b hb
      have hab : r1.cellHeap.length = b := Option.some.inj hb
      exact ⟨n, List.mem_append.2 (Or.inr (by simp [hab]))⟩
    · have hn : n ∉ r1.m_cells.map Prod.fst := (lookup_none_iff _ _).1 hl
      simp only [List.map_append, List.map_cons, List.map_nil]
      rw [List.nodup_append]
      refine ⟨h3, List.nodup_singleton _, ?_⟩
      intro k hk hk2
      rw [List.mem_singleton] at hk2
      exact hn (hk2 ▸ hk)
    · intro c hc kv hkv
      rcases List.mem_append.1 hc with hm | hm
      · exact h5 c hm kv hkv
      · rw [List.mem_singleton] at hm
        subst hm
        simp [LEFCellInfo_t.new] at hkv

theorem onPin_inv (p : String) (r r1 : PRLEFReader) (hi : Inv r)
    (h : onPin p r = some r1) : Inv r1 := by
  obtain ⟨a, c, ha, hc, hcase⟩ := onPin_shape p r r1 h
  obtain ⟨h1, h2, h3, h4, h5⟩ := hi
  rcases hcase with ⟨q, hl, he⟩ | ⟨hl, he⟩
  · subst he
    refine ⟨h1, h2, h3, ?_, h5⟩
    intro q1 hq1
    have hqq : q = q1 := Option.some.inj hq1
    subst hqq
    exact h5 c (List.getElem?_mem hc) (p, q) (lookup_mem _ _ _ hl)
  · subst he
    refine ⟨?_, h2, h3, ?_, ?_⟩
    · intro kv hkv
      simpa using h1 kv hkv
    · intro q1 hq1
      have hqq : r.pinHeap.length = q1 := Option.some.inj hq1
      subst hqq
      simp
    · intro c2 hc2 kv hkv
      simp only [List.length_append, List.length_singleton]
      rcases List.mem_or_eq_of_mem_set hc2 with hm | he
      · have := h5 c2 hm kv hkv
        omega
      · subst he
        rcases List.mem_append.1 hkv with hm | hm
        · have := h5 c (List.getElem?_mem hc) kv hm
          omega
        · rw [List.mem_singleton] at hm
          subst hm
          simp

theorem step_inv (e : Event) (r r1 : PRLEFReader) (hi : Inv r) (h : step e r = some r1) :
    Inv r1 := by
  cases e with
  | macroStart n => exact onMacro_inv n r r1 hi h
  | size sx sy => exact cellUpdate_inv r r1 hi (onSize_update sx sy r r1 h)
  | foreign n ox oy => exact cellUpdate_inv r r1 hi (onForeign_update n ox oy r r1 h)
  | symmetry s => exact cellUpdate_inv r r1 hi (onSymmetry_update s r r1 h)
  | cls s => exact cellUpdate_inv r r1 hi (onClass_update s r r1 h)
  | units u =>
    have he : r1 = { r with m_lefDatabaseUnits := u } := (Option.some.inj h).symm
    subst he
    exact hi
  | pin n => exact onPin_inv n r r1 hi h
  | pinDirection s => exact pinUpdate_inv r r1 hi (onPinDirection_update s r r1 h)
  | pinUse s => exact pinUpdate_inv r r1 hi (onPinUse_update s r r1 h)
  | pinLayerClass s => exact pinUpdate_inv r r1 hi (onPinLayerClass_update s r r1 h)

theorem run_inv (es : List Event) (r r1 : PRLEFReader) (hi : Inv r) (h : run es r = some r1) :
    Inv r1 := by
  induction es generalizing r with
  | nil =>
    have he : r = r1 := Option.some.inj h
    exact he ▸ hi
  | cons e es ih =>
    unfold run at h
    split at h
    · cases h
    · rename_i r2 hr2
      exact ih r2 (step_inv e r r2 hi hr2) h

end PRLEFReader

namespace PRLEFReader

/-! ### Handlers complete on well-ordered streams -/

theorem open_cell_valid (r : PRLEFReader) (a : Nat) (hi : Inv r) (ha : r.m_parseCell = some a) :
    ∃ c, r.cellHeap[a]? = some c := by
  obtain ⟨k, hk⟩ := hi.2.1 a ha
  exact ⟨_, List.getElem?_eq_getElem (hi.1 (k, a) hk)⟩

theorem open_pin_valid (r : PRLEFReader) (q : Nat) (hi : Inv r) (hq : r.m_parsePin = some q) :
    ∃ p, r.pinHeap[q]? = some p :=
  ⟨_, List.getElem?_eq_getElem (hi.2.2.2.1 q hq)⟩

theorem doIntegrityChecks_total (r : PRLEFReader) (hi : Inv r) :
    ∃ r1, doIntegrityChecks r = some r1 := by
  cases ha : r.m_parseCell with
  | none => exact ⟨r, by simp [doIntegrityChecks, ha]⟩
  | some a =>
    obtain ⟨c, hc⟩ := open_cell_valid r a hi ha
    exact ⟨_, doIntegrityChecks_open r a c ha hc⟩

theorem onMacro_total (n : String) (r : PRLEFReader) (hi : Inv r) :
    ∃ r2, onMacro n r = some r2 ∧ r2.m_parseCell ≠ none ∧ r2.m_parsePin = r.m_parsePin := by
  have hpre : ∃ r1, (if r.m_parseCell ≠ none then doIntegrityChecks r else some r) = some r1
      ∧ r1.m_parsePin = r.m_parsePin := by
    by_cases hp : r.m_parseCell = none
    · exact ⟨r, by simp [hp], rfl⟩
    · obtain ⟨r1, hr1⟩ := doIntegrityChecks_total r hi
      exact ⟨r1, by simp [hp, hr1],
        (cellUpdate_frame r r1 (doIntegrityChecks_update r r1 hr1)).2.2.1⟩
  obtain ⟨r1, hr1, hpin⟩ := hpre
  unfold onMacro
  rw [hr1]
  cases hl : r1.m_cells.lookup n with
  | some a => exact ⟨{ r1 with m_parseCell := some a }, by simp [hl], by simp, hpin⟩
  | none =>
    exact ⟨{ r1 with
        cellHeap := r1.cellHeap ++ [{ LEFCellInfo_t.new with m_name := n }]
        m_cells := r1.m_cells ++ [(n, r1.cellHeap.length)]
        m_parseCell := some r1.cellHeap.length }, by simp [hl], by simp, hpin⟩

theorem onSize_total (sx sy : ℚ) (r : PRLEFReader) (hi : Inv r) :
    ∃ r1, onSize sx sy r = some r1 := by
  cases ha : r.m_parseCell with
  | none => exact ⟨r, by simp [onSize, ha]⟩
  | some a =>
    obtain ⟨c, hc⟩ := open_cell_valid r a hi ha
    simp only [onSize, ha, hc]
    exact ⟨_, rfl⟩

theorem onForeign_total (f : String) (ox oy : ℚ) (r : PRLEFReader) (hi : Inv r) :
    ∃ r1, onForeign f ox oy r = some r1 := by
  cases ha : r.m_parseCell with
  | none => exact ⟨r, by simp [onForeign, ha]⟩
  | some a =>
    obtain ⟨c, hc⟩ := open_cell_valid r a hi ha
    simp only [onForeign, ha, hc]
    exact ⟨_, rfl⟩

theorem onSymmetry_total (s : String) (r : PRLEFReader) (hi : Inv r) :
    ∃ r1, onSymmetry s r = some r1 := by
  cases ha : r.m_parseCell with
  | none => exact ⟨r, by simp [onSymmetry, ha]⟩
  | some a =>
    obtain ⟨c, hc⟩ := open_cell_valid r a hi ha
    simp only [onSymmetry, ha, hc]
    exact ⟨_, rfl⟩

theorem onClass_total (s : String) (r : PRLEFReader) (hi : Inv r)
    (ho : r.m_parseCell ≠ none) : ∃ r1, onClass s r = some r1 := by
  cases ha : r.m_parseCell with
  | none => exact absurd ha ho
  | some a =>
    obtain ⟨c, hc⟩ := open_cell_valid r a hi ha
    simp only [onClass, ha, hc]
    exact ⟨_, rfl⟩

theorem onPin_total (p : String) (r : PRLEFReader) (hi : Inv r)
    (ho : r.m_parseCell ≠ none) :
    ∃ r1, onPin p r = some r1 ∧ r1.m_parsePin ≠ none ∧ r1.m_parseCell = r.m_parseCell := by
  cases ha : r.m_parseCell with
  | none => exact absurd ha ho
  | some a =>
    obtain ⟨c, hc⟩ := open_cell_valid r a hi ha
    cases hl : c.m_pins.lookup p with
    | some q =>
      simp only [onPin, ha, hc, hl]
      exact ⟨_, rfl, by simp, rfl⟩
    | none =>
      simp only [onPin, ha, hc, hl]
      exact ⟨_, rfl, by simp, rfl⟩

theorem onPinDirection_total (s : String) (r : PRLEFReader) (hi : Inv r)
    (ho : r.m_parsePin ≠ none) : ∃ r1, onPinDirection s r = some r1 := by
  cases hq : r.m_parsePin with
  | none => exact absurd hq ho
  | some q =>
    obtain ⟨p, hp⟩ := open_pin_valid r q hi hq
    simp only [onPinDirection, hq, hp]
    exact ⟨_, rfl⟩

theorem onPinUse_total (s : String) (r : PRLEFReader) (hi : Inv r)
    (ho : r.m_parsePin ≠ none) : ∃ r1, onPinUse s r = some r1 := by
  cases hq : r.m_parsePin with
  | none => exact absurd hq ho
  | some q =>
    obtain ⟨p, hp⟩ := open_pin_valid r q hi hq
    simp only [onPinUse, hq, hp]
    exact ⟨_, rfl⟩

theorem onPinLayerClass_total (s : String) (r : PRLEFReader) (hi : Inv r)
    (ho : r.m_parsePin ≠ none) : ∃ r1, onPinLayerClass s r = some r1 := by
  cases hq : r.m_parsePin with
  | none => exact absurd hq ho
  | some q =>
    obtain ⟨p, hp⟩ := open_pin_valid r q hi hq
    by_cases hc : contains s "CORE" = true
    · simp only [onPinLayerClass, hq, hp, hc, if_true]
      exact ⟨_, rfl⟩
    · exact ⟨r, by simp [onPinLayerClass, hq, hp, hc]⟩

theorem run_cons_some (e : Event) (es : List Event) (r r1 : PRLEFReader)
    (h : step e r = some r1) : run (e :: es) r = run es r1 := by
  simp [run, h]

theorem run_total (es : List Event) (r : PRLEFReader) (haveCell havePin : Bool)
    (hi : Inv r) (hc : haveCell = true → r.m_parseCell ≠ none)
    (hp : havePin = true → r.m_parsePin ≠ none)
    (ho : ordered haveCell havePin es = true) : ∃ r1, run es r = some r1 := by
  induction es generalizing r haveCell havePin with
  | nil => exact ⟨r, rfl⟩
  | cons e es ih =>
    cases e with
    | macroStart n =>
      obtain ⟨r1, h1, h2, h3⟩ := onMacro_total n r hi
      have hs : step (.macroStart n) r = some r1 := h1
      rw [run_cons_some _ _ _ _ hs]
      exact ih r1 true havePin (step_inv _ _ _ hi hs) (fun _ => h2) (fun h => h3 ▸ hp h) ho
    | size sx sy =>
      obtain ⟨r1, h1⟩ := onSize_total sx sy r hi
      have hs : step (.size sx sy) r = some r1 := h1
      obtain ⟨-, f2, f3, -⟩ := cellUpdate_frame r r1 (onSize_update sx sy r r1 h1)
      rw [run_cons_some _ _ _ _ hs]
      exact ih r1 haveCell havePin (step_inv _ _ _ hi hs) (fun h => f2 ▸ hc h)
        (fun h => f3 ▸ hp h) ho
    | foreign f ox oy =>
      obtain ⟨r1, h1⟩ := onForeign_total f ox oy r hi
      have hs : step (.foreign f ox oy) r = some r1 := h1
      obtain ⟨-, f2, f3, -⟩ := cellUpdate_frame r r1 (onForeign_update f ox oy r r1 h1)
      rw [run_cons_some _ _ _ _ hs]
      exact ih r1 haveCell havePin (step_inv _ _ _ hi hs) (fun h => f2 ▸ hc h)
        (fun h => f3 ▸ hp h) ho
    | symmetry s =>
      obtain ⟨r1, h1⟩ := onSymmetry_total s r hi
      have hs : step (.symmetry s) r = some r1 := h1
      obtain ⟨-, f2, f3, -⟩ := cellUpdate_frame r r1 (onSymmetry_update s r r1 h1)
      rw [run_cons_some _ _ _ _ hs]
      exact ih r1 haveCell havePin (step_inv _ _ _ hi hs) (fun h => f2 ▸ hc h)
        (fun h => f3 ▸ hp h) ho
    | cls s =>
      simp only [ordered, Bool.and_eq_true] at ho
      obtain ⟨r1, h1⟩ := onClass_total s r hi (hc ho.1)
      have hs : step (.cls s) r = some r1 := h1
      obtain ⟨-, f2, f3, -⟩ := cellUpdate_frame r r1 (onClass_update s r r1 h1)
      rw [run_cons_some _ _ _ _ hs]
      exact ih r1 haveCell havePin (step_inv _ _ _ hi hs) (fun h => f2 ▸ hc h)
        (fun h => f3 ▸ hp h) ho.2
    | units u =>
      have hs : step (.units u) r = some { r with m_lefDatabaseUnits := u } := rfl
      rw [run_cons_some _ _ _ _ hs]
      exact ih _ haveCell havePin (step_inv _ _ _ hi hs) hc hp ho
    | pin n =>
      simp only [ordered, Bool.and_eq_true] at ho
      obtain ⟨r1, h1, h2, h3⟩ := onPin_total n r hi (hc ho.1)
      have hs : step (.pin n) r = some r1 := h1
      rw [run_cons_some _ _ _ _ hs]
      exact ih r1 haveCell true (step_inv _ _ _ hi hs) (fun h => h3 ▸ hc h) (fun _ => h2) ho.2
    | pinDirection s =>
      simp only [ordered, Bool.and_eq_true] at ho
      obtain ⟨r1, h1⟩ := onPinDirection_total s r hi (hp ho.1)
      have hs : step (.pinDirection s) r = some r1 := h1
      obtain ⟨-, f2, f3, -⟩ := pinUpdate_frame r r1 (onPinDirection_update s r r1 h1)
      rw [run_cons_some _ _ _ _ hs]
      exact ih r1 haveCell havePin (step_inv _ _ _ hi hs) (fun h => f2 ▸ hc h)
        (fun h => f3 ▸ hp h) ho.2
    | pinUse s =>
      simp only [ordered, Bool.and_eq_true] at ho
      obtain ⟨r1, h1⟩ := onPinUse_total s r hi (hp ho.1)
      have hs : step (.pinUse s) r = some r1 := h1
      obtain ⟨-, f2, f3, -⟩ := pinUpdate_frame r r1 (onPinUse_update s r r1 h1)
      rw [run_cons_some _ _ _ _ hs]
      exact ih r1 haveCell havePin (step_inv _ _ _ hi hs) (fun h => f2 ▸ hc h)
        (fun h => f3 ▸ hp h) ho.2
    | pinLayerClass s =>
      simp only [ordered, Bool.and_eq_true] at ho
      obtain ⟨r1, h1⟩ := onPinLayerClass_total s r hi (hp ho.1)
      have hs : step (.pinLayerClass s) r = some r1 := h1
      obtain ⟨-, f2, f3, -⟩ := pinUpdate_frame r r1 (onPinLayerClass_update s r r1 h1)
      rw [run_cons_some _ _ _ _ hs]
      exact ih r1 haveCell havePin (step_inv _ _ _ hi hs) (fun h => f2 ▸ hc h)
        (fun h => f3 ▸ hp h) ho.2

end PRLEFReader

namespace PRLEFReader

/-! ### Keys of the cell map along a run -/

theorem mem_macroNames (n : String) (es : List Event) :
    n ∈ macroNames es ↔ Event.macroStart n ∈ es := by
  induction es with
  | nil => simp [macroNames]
  | cons e es ih =>
    cases e <;> simp [macroNames, ih]

theorem step_cells (e : Event) (r r1 : PRLEFReader) (h : step e r = some r1) :
    r1.m_cells = r.m_cells
      ∨ ∃ n, e = .macroStart n ∧ r.m_cells.lookup n = none
          ∧ r1.m_cells = r.m_cells ++ [(n, r.cellHeap.length)] := by
  cases e with
  | macroStart n =>
    obtain ⟨r0, hu, hcase⟩ := onMacro_shape n r r1 h
    obtain ⟨f1, -, -, -, f5, -⟩ := cellUpdate_frame r r0 hu
    rcases hcase with ⟨a, hl, he⟩ | ⟨hl, he⟩
    · subst he
      exact Or.inl f1
    · subst he
      refine Or.inr ⟨n, rfl, f1 ▸ hl, ?_⟩
      simp [f1, f5]
  | size sx sy => exact Or.inl (cellUpdate_frame r r1 (onSize_update sx sy r r1 h)).1
  | foreign n ox oy => exact Or.inl (cellUpdate_frame r r1 (onForeign_update n ox oy r r1 h)).1
  | symmetry s => exact Or.inl (cellUpdate_frame r r1 (onSymmetry_update s r r1 h)).1
  | cls s => exact Or.inl (cellUpdate_frame r r1 (onClass_update s r r1 h)).1
  | units u =>
    have he : r1 = { r with m_lefDatabaseUnits := u } := (Option.some.inj h).symm
    subst he
    exact Or.inl rfl
  | pin n =>
    obtain ⟨a, c, ha, hc, hcase⟩ := onPin_shape n r r1 h
    rcases hcase with ⟨q, hl, he⟩ | ⟨hl, he⟩ <;> subst he <;> exact Or.inl rfl
  | pinDirection s => exact Or.inl (pinUpdate_frame r r1 (onPinDirection_update s r r1 h)).1
  | pinUse s => exact Or.inl (pinUpdate_frame r r1 (onPinUse_update s r r1 h)).1
  | pinLayerClass s => exact Or.inl (pinUpdate_frame r r1 (onPinLayerClass_update s r r1 h)).1

theorem onMacro_registers (n : String) (r r1 : PRLEFReader) (h : onMacro n r = some r1) :
    n ∈ r1.m_cells.map Prod.fst := by
  obtain ⟨r0, hu, hcase⟩ := onMacro_shape n r r1 h
  rcases hcase with ⟨a, hl, he⟩ | ⟨hl, he⟩
  · subst he
    exact List.mem_map.2 ⟨(n, a), lookup_mem _ _ _ hl, rfl⟩
  · subst he
    simp

theorem step_keys (e : Event) (r r1 : PRLEFReader) (h : step e r = some r1) (n : String) :
    n ∈ r1.m_cells.map Prod.fst ↔ n ∈ r.m_cells.map Prod.fst ∨ e = .macroStart n := by
  rcases step_cells e r r1 h with hc | ⟨m, he, hl, hc⟩
  · rw [hc]
    constructor
    · exact Or.inl
    · rintro (hk | he)
      · exact hk
      · subst he
        have := onMacro_registers n r r1 h
        rwa [hc] at this
  · subst he
    rw [hc]
    simp only [List.map_append, List.map_cons, List.map_nil, List.mem_append,
      List.mem_singleton, Event.macroStart.injEq]
    constructor
    · rintro (hk | hk)
      · exact Or.inl hk
      · exact Or.inr hk.symm
    · rintro (hk | hk)
      · exact Or.inl hk
      · exact Or.inr hk.symm

theorem run_keys (es : List Event) (r r1 : PRLEFReader) (h : run es r = some r1)
    (n : String) :
    n ∈ r1.m_cells.map Prod.fst ↔ n ∈ r.m_cells.map Prod.fst ∨ n ∈ macroNames es := by
  induction es generalizing r with
  | nil =>
    have he : r = r1 := Option.some.inj h
    subst he
    simp [macroNames]
  | cons e es ih =>
    unfold run at h
    split at h
    · cases h
    · rename_i r2 hr2
      rw [ih r2 h, step_keys e r r2 hr2 n, mem_macroNames, mem_macroNames]
      simp only [List.mem_cons]
      constructor
      · rintro ((hk | hk) | hk)
        · exact Or.inl hk
        · exact Or.inr (Or.inl hk.symm)
        · exact Or.inr (Or.inr hk)
      · rintro (hk | hk | hk)
        · exact Or.inl (Or.inl hk)
        · exact Or.inl (Or.inr hk.symm)
        · exact Or.inr hk

theorem step_heap_frame (e : Event) (r r1 : PRLEFReader) (h : step e r = some r1)
    (hne : ∀ n, e ≠ .macroStart n) (b : Nat) (hb : r.m_parseCell ≠ some b) :
    r1.cellHeap[b]? = r.cellHeap[b]? := by
  cases e with
  | macroStart n => exact absurd rfl (hne n)
  | size sx sy =>
    exact (cellUpdate_frame r r1 (onSize_update sx sy r r1 h)).2.2.2.2.2.2 b hb
  | foreign n ox oy =>
    exact (cellUpdate_frame r r1 (onForeign_update n ox oy r r1 h)).2.2.2.2.2.2 b hb
  | symmetry s =>
    exact (cellUpdate_frame r r1 (onSymmetry_update s r r1 h)).2.2.2.2.2.2 b hb
  | cls s =>
    exact (cellUpdate_frame r r1 (onClass_update s r r1 h)).2.2.2.2.2.2 b hb
  | units u =>
    have he : r1 = { r with m_lefDatabaseUnits := u } := (Option.some.inj h).symm
    subst he
    rfl
  | pin n =>
    obtain ⟨a, c, ha, hc, hcase⟩ := onPin_shape n r r1 h
    rcases hcase with ⟨q, hl, he⟩ | ⟨hl, he⟩
    · subst he
      rfl
    · subst he
      have hab : a ≠ b := fun he => hb (he ▸ ha)
      simp [List.getElem?_set_ne hab]
  | pinDirection s =>
    rw [(pinUpdate_frame r r1 (onPinDirection_update s r r1 h)).2.2.2.1]
  | pinUse s =>
    rw [(pinUpdate_frame r r1 (onPinUse_update s r r1 h)).2.2.2.1]
  | pinLayerClass s =>
    rw [(pinUpdate_frame r r1 (onPinLayerClass_update s r r1 h)).2.2.2.1]

end PRLEFReader

/-- C18: an event stream that keeps the ordering contract runs to completion on
an empty builder; on the builder a stream ends in, `getCellByName n` returns the
address of a record exactly when the stream has a macro-start(n) event (and
`nullptr` exactly when it has none), and the number of cells equals the number
of distinct names given to macro-start.  The lookup is a function of the
builder that returns only the address: it has no state to change. -/
theorem C18_lookup_iff_macro_start (es : List PRLEFReader.Event) :
    (PRLEFReader.ordered false false es = true →
        ∃ r, PRLEFReader.run es PRLEFReader.new = some r)
      ∧ (∀ r, PRLEFReader.run es PRLEFReader.new = some r →
        (∀ n, (∃ a c, PRLEFReader.getCellByName n r = some a ∧ r.cellHeap[a]? = some c)
            ↔ PRLEFReader.Event.macroStart n ∈ es)
          ∧ (∀ n, PRLEFReader.getCellByName n r = none
            ↔ PRLEFReader.Event.macroStart n ∉ es)
          ∧ r.m_cells.length = (PRLEFReader.macroNames es).dedup.length) := by
  constructor
  · intro ho
    exact PRLEFReader.run_total es PRLEFReader.new false false PRLEFReader.inv_new
      (fun h => by cases h) (fun h => by cases h) ho
  · intro r hr
    have hi : PRLEFReader.Inv r := PRLEFReader.run_inv es _ r PRLEFReader.inv_new hr
    have hk : ∀ n, n ∈ r.m_cells.map Prod.fst ↔ PRLEFReader.Event.macroStart n ∈ es := by
      intro n
      rw [PRLEFReader.run_keys es _ r hr n, PRLEFReader.mem_macroNames]
      simp [PRLEFReader.new]
    refine ⟨?_, ?_, ?_⟩
    · intro n
      rw [← hk n]
      constructor
      · rintro ⟨a, c, ha, -⟩
        exact List.mem_map.2 ⟨(n, a), PRLEFReader.lookup_mem _ _ _ ha, rfl⟩
      · intro hn
        obtain ⟨kv, hkv, hfst⟩ := List.mem_map.1 hn
        obtain ⟨k, a⟩ := kv
        simp only at hfst
        subst hfst
        exact ⟨a, _, PRLEFReader.lookup_of_mem_nodup _ _ _ hi.2.2.1 hkv,
          List.getElem?_eq_getElem (hi.1 (k, a) hkv)⟩
    · intro n
      rw [← hk n]
      exact PRLEFReader.lookup_none_iff _ _
    · have hperm : (r.m_cells.map Prod.fst).Perm (PRLEFReader.macroNames es).dedup := by
        rw [List.perm_ext_iff_of_nodup hi.2.2.1 (List.nodup_dedup _)]
        intro n
        rw [hk n, List.mem_dedup, PRLEFReader.mem_macroNames]
      have := hperm.length_eq
      simpa using this

/-- C18 on the stream `twoCellsEventsW`, which names "A" and "B": it runs to
`twoCellsW`, where "A" and "B" are found, "C" is not, and there are two cells. -/
theorem C18_witness :
    (∃ r, PRLEFReader.run twoCellsEventsW PRLEFReader.new = some r)
      ∧ PRLEFReader.getCellByName "A" twoCellsW = some 0
      ∧ PRLEFReader.getCellByName "B" twoCellsW = some 1
      ∧ PRLEFReader.getCellByName "C" twoCellsW = none
      ∧ twoCellsW.m_cells.length = 2 := by
  have h := C18_lookup_iff_macro_start twoCellsEventsW
  have hrun : PRLEFReader.run twoCellsEventsW PRLEFReader.new = some twoCellsW := by decide
  refine ⟨h.1 (by decide), by decide, by decide, ?_, by decide⟩
  exact ((h.2 twoCellsW hrun).2.1 "C").2 (by decide)

/-- C20: on a builder reached from the empty builder by an event stream, the
open cell, when there is one, is a record of the heap registered under some key
of the cell map; an event that is not a macro-start with an unregistered name
leaves the cell map unchanged; and an event other than macro-start changes no
cell record except that of the open cell. -/
theorem C20_open_cell_is_registered (es : List PRLEFReader.Event) (r : PRLEFReader)
    (h : PRLEFReader.run es PRLEFReader.new = some r) :
    (∀ a, r.m_parseCell = some a →
        ∃ k c, PRLEFReader.getCellByName k r = some a ∧ r.cellHeap[a]? = some c)
      ∧ (∀ e r1, PRLEFReader.step e r = some r1 →
          (∀ n, e = .macroStart n → PRLEFReader.getCellByName n r ≠ none) →
          r1.m_cells = r.m_cells)
      ∧ (∀ e r1, PRLEFReader.step e r = some r1 → (∀ n, e ≠ .macroStart n) →
          ∀ b, r.m_parseCell ≠ some b → r1.cellHeap[b]? = r.cellHeap[b]?) := by
  have hi : PRLEFReader.Inv r := PRLEFReader.run_inv es _ r PRLEFReader.inv_new h
  refine ⟨?_, ?_, ?_⟩
  · intro a ha
    obtain ⟨k, hk⟩ := hi.2.1 a ha
    exact ⟨k, _, PRLEFReader.lookup_of_mem_nodup _ _ _ hi.2.2.1 hk,
      List.getElem?_eq_getElem (hi.1 (k, a) hk)⟩
  · intro e r1 hs hfresh
    rcases PRLEFReader.step_cells e r r1 hs with hc | ⟨n, he, hl, -⟩
    · exact hc
    · exact absurd hl (hfresh n he)
  · intro e r1 hs hne b hb
    exact PRLEFReader.step_heap_frame e r r1 hs hne b hb

/-- C20 on the builder `twoCellsW`, reached by the stream `twoCellsEventsW`: its
open cell, at address 1, is registered under a key. -/
theorem C20_witness :
    PRLEFReader.run twoCellsEventsW PRLEFReader.new = some twoCellsW
      ∧ ∃ k c, PRLEFReader.getCellByName k twoCellsW = some 1
          ∧ twoCellsW.cellHeap[1]? = some c :=
  ⟨by decide, (C20_open_cell_is_registered twoCellsEventsW twoCellsW (by decide)).1 1 rfl⟩

end Padring
